import Mathlib

/-!
Verification development for the explorer's streaming graph engine.

The definitions below are a shallow embedding of the two core components:

* the Feed Reconciler (`FeedClient.subscribe`'s transactions handler,
  `src/unnamed/part_003` and `src/client/src/services/feedClient.ts`), and
* the Graph Maintenance Engine (`Visualizer` in `src/unnamed/part_000`:
  `drawUpdates`, `removeNodes`, `highlightMilestones`, `removeSmallNetworks`,
  `calculateSubGraph`, `calculateNodeStyle`).

Machine numbers are embedded as `Int`/`Nat`; JavaScript object maps are
embedded as association lists; the Viva graph library, which is an external
collaborator of this repository, is embedded as a pair of lists with the
operations the engine calls, where the walk of a node's linked neighbours
iterates over the links present when the walk starts.
-/

/-- Values stored in the open-ended metaData mapping of a feed item. -/
inductive MetaVal where
  | num (n : Int)
  | str (s : String)
deriving DecidableEq

/-- Truthiness of a metadata value under JavaScript coercion. -/
def MetaVal.truthy : MetaVal → Bool
  | .num n => n != 0
  | .str s => s != ""

/-- Typed feed item, as produced by FeedClient.convertItem in
src/unnamed/part_003: id, optional value, up to two parent ids, open
metadata map, payload category tag and confirmation flag. A field that
JavaScript leaves undefined is `none`. -/
structure IFeedItem where
  id : String
  value : Option Int := none
  parent1 : Option String := none
  parent2 : Option String := none
  metaData : Option (List (String × MetaVal)) := none
  payloadType : String := "None"
  confirmed : Bool := false
deriving DecidableEq

/-- Truthiness of an optional string, mirroring `if (item.parent1)`. -/
def optStrTruthy : Option String → Bool
  | some s => s != ""
  | none => false

/-- Lookup of the MS key of the optional metadata map, mirroring the
expression `item.metaData?.MS`. -/
def IFeedItem.metaMS (item : IFeedItem) : Option MetaVal :=
  item.metaData.bind (fun m => (m.find? (fun kv => kv.1 == "MS")).map Prod.snd)

/-- JavaScript truthiness of `metaData?.MS`. -/
def IFeedItem.msTruthy (item : IFeedItem) : Bool :=
  match item.metaMS with
  | some v => v.truthy
  | none => false

/-- The numeric value of `metaData?.MS` (the code only ever stores numbers
under the MS key). -/
def IFeedItem.msNum (item : IFeedItem) : Option Int :=
  match item.metaMS with
  | some (.num n) => some n
  | _ => none

/-- Node payload stored in the graph (INodeData in the source): the feed
item, the arrival timestamp, and the transient component id used only
during pruning passes. -/
structure INodeData where
  feedItem : IFeedItem
  added : Int
  graphId : Option Nat := none
deriving DecidableEq

/-- Directed edge of the visualizer graph, stored from parent to child. -/
structure GraphLink where
  fromId : String
  toId : String
deriving DecidableEq

/-- Whether a link touches the node with the given id. -/
def GraphLink.touches (l : GraphLink) (id : String) : Bool :=
  l.fromId == id || l.toId == id

/-- The other endpoint of a link relative to the given node, as handed to
the forEachLinkedNode callback. -/
def GraphLink.otherEnd (l : GraphLink) (id : String) : String :=
  if l.fromId == id then l.toId else l.fromId

/-- The visualizer graph: nodes in insertion order plus directed links.
This embeds the external Viva graph object with the operations the engine
uses. -/
structure Graph where
  nodes : List (String × INodeData) := []
  links : List GraphLink := []
deriving DecidableEq

namespace Graph

/-- Mirrors getNode. -/
def getNode (g : Graph) (id : String) : Option INodeData :=
  (g.nodes.find? (fun p => p.1 == id)).map Prod.snd

/-- Mirrors addNode: replaces the data when the node exists, appends a
fresh node otherwise. -/
def addNode (g : Graph) (id : String) (d : INodeData) : Graph :=
  if (g.nodes.find? (fun p => p.1 == id)).isSome then
    { g with nodes := g.nodes.map (fun p => if p.1 == id then (id, d) else p) }
  else
    { g with nodes := g.nodes ++ [(id, d)] }

/-- Update only the stored data of an existing node. -/
def setData (g : Graph) (id : String) (d : INodeData) : Graph :=
  { g with nodes := g.nodes.map (fun p => if p.1 == id then (id, d) else p) }

/-- Mirrors addLink. -/
def addLink (g : Graph) (f t : String) : Graph :=
  { g with links := g.links ++ [⟨f, t⟩] }

/-- Mirrors removeLink: removes the given link. -/
def removeLink (g : Graph) (l : GraphLink) : Graph :=
  { g with links := g.links.erase l }

/-- Mirrors removeNode: deletes the node and every link still attached to
it. -/
def removeNode (g : Graph) (id : String) : Graph :=
  { nodes := g.nodes.filter (fun p => !(p.1 == id)),
    links := g.links.filter (fun l => !(l.touches id)) }

/-- The links currently touching a node, in storage order. -/
def linksOf (g : Graph) (id : String) : List GraphLink :=
  g.links.filter (fun l => l.touches id)

/-- The ids of the nodes currently in the graph, in insertion order. -/
def ids (g : Graph) : List String :=
  g.nodes.map Prod.fst

end Graph

namespace Visualizer

/-- Maximum number of items (Visualizer.MAX_ITEMS). -/
def MAX_ITEMS : Nat := 5000

/-- Shared body of the two parent branches of the drawUpdates item loop:
create a placeholder node for the parent when absent (recording it as
added), then add the parent-to-child link. -/
def linkParent (now : Int) (childId p : String) (st : Graph × List String) :
    Graph × List String :=
  let st0 :=
    if (st.1.getNode p).isNone then
      (st.1.addNode p { feedItem := { id := p, confirmed := false }, added := now },
        st.2 ++ [p])
    else st
  (st0.1.addLink p childId, st0.2)

/-- Body of the per-item loop of Visualizer.drawUpdates: skip the item when
a node with its id exists; otherwise create the node, create placeholder
parents as needed, record every truly new id, and add the parent links. -/
def processItem (now : Int) (st : Graph × List String) (item : IFeedItem) :
    Graph × List String :=
  match st.1.getNode item.id with
  | some _ => st
  | none =>
    let st1 := (st.1.addNode item.id { feedItem := item, added := now },
      st.2 ++ [item.id])
    let st2 :=
      match item.parent1 with
      | some p1 => if p1 != "" then linkParent now item.id p1 st1 else st1
      | none => st1
    match item.parent2 with
    | some p2 =>
      if p2 != "" && item.parent1 != some p2 then linkParent now item.id p2 st2 else st2
    | none => st2

/-- The for-loop of drawUpdates over one consumed chunk of items, returning
the updated graph and the list of added node ids. -/
def processItems (now : Int) (g : Graph) (items : List IFeedItem) :
    Graph × List String :=
  items.foldl (processItem now) (g, [])

end Visualizer

section BasicLemmas

open Visualizer

theorem find?_key_cons_pos {κ α : Type} [BEq κ] {j : κ} (x : κ × α)
    (xs : List (κ × α)) (hx : (x.1 == j) = true) :
    List.find? (fun p => p.1 == j) (x :: xs) = some x :=
  @List.find?_cons_of_pos _ (fun p => p.1 == j) x xs hx

theorem find?_key_cons_neg {κ α : Type} [BEq κ] {j : κ} (x : κ × α)
    (xs : List (κ × α)) (hx : ¬ (x.1 == j) = true) :
    List.find? (fun p => p.1 == j) (x :: xs) = List.find? (fun p => p.1 == j) xs :=
  @List.find?_cons_of_neg _ (fun p => p.1 == j) x xs hx

theorem find?_key_isSome_map {κ α β : Type} [BEq κ] (f : κ × α → κ × β)
    (hf : ∀ x, (f x).1 = x.1) (xs : List (κ × α)) (j : κ) :
    ((xs.map f).find? (fun p => p.1 == j)).isSome
      = (xs.find? (fun p => p.1 == j)).isSome := by
  induction xs with
  | nil => rfl
  | cons x xs ih =>
    by_cases hx : (x.1 == j) = true
    · rw [List.map_cons, find?_key_cons_pos (f x) _ (by rw [hf]; exact hx),
        find?_key_cons_pos x _ hx]
      rfl
    · rw [List.map_cons, find?_key_cons_neg (f x) _ (by rw [hf]; exact hx),
        find?_key_cons_neg x _ hx]
      exact ih

theorem map_noop {α : Type} (L : List α) (f : α → α) (h : ∀ x ∈ L, f x = x) :
    L.map f = L := by
  induction L with
  | nil => rfl
  | cons x xs ih =>
    rw [List.map_cons, h x (by simp), ih (fun y hy => h y (by simp [hy]))]

theorem find?_key_map_replace {xs : List (String × INodeData)} {id : String}
    (d : INodeData) (h : (xs.find? (fun p => p.1 == id)).isSome) :
    (xs.map (fun p => if p.1 == id then (id, d) else p)).find? (fun p => p.1 == id)
      = some (id, d) := by
  induction xs with
  | nil => simp at h
  | cons x xs ih =>
    by_cases hx : x.1 == id
    · simp only [List.map_cons, if_pos hx]
      exact find?_key_cons_pos _ _ (by simp)
    · rw [find?_key_cons_neg _ _ hx] at h
      simp only [List.map_cons, if_neg hx]
      rw [find?_key_cons_neg _ _ hx]
      exact ih h

theorem find?_key_map_replace_ne {xs : List (String × INodeData)} {id j : String}
    (d : INodeData) (hij : ¬ j = id) :
    (xs.map (fun p => if p.1 == id then (id, d) else p)).find? (fun p => p.1 == j)
      = xs.find? (fun p => p.1 == j) := by
  induction xs with
  | nil => rfl
  | cons x xs ih =>
    by_cases hx : x.1 == id
    · have hxj : ¬ (x.1 == j) = true := by
        simp only [beq_iff_eq] at hx ⊢
        rw [hx]
        exact fun hc => hij hc.symm
      simp only [List.map_cons, if_pos hx]
      rw [find?_key_cons_neg ((id, d) : String × INodeData) _
        (by simpa using fun hc => hij hc.symm)]
      rw [find?_key_cons_neg x _ hxj]
      exact ih
    · simp only [List.map_cons, if_neg hx]
      by_cases hxj : (x.1 == j) = true
      · rw [find?_key_cons_pos x _ hxj, find?_key_cons_pos x _ hxj]
      · rw [find?_key_cons_neg x _ hxj, find?_key_cons_neg x _ hxj]
        exact ih

theorem getNode_addNode_self (g : Graph) (id : String) (d : INodeData) :
    (g.addNode id d).getNode id = some d := by
  unfold Graph.addNode Graph.getNode
  by_cases h : (g.nodes.find? (fun p => p.1 == id)).isSome
  · rw [if_pos h]
    dsimp only
    rw [find?_key_map_replace d h]
    rfl
  · rw [if_neg h]
    dsimp only
    rw [List.find?_append]
    rw [Option.not_isSome_iff_eq_none] at h
    rw [h]
    simp

theorem getNode_addNode_ne (g : Graph) (id j : String) (d : INodeData)
    (hij : ¬ j = id) : (g.addNode id d).getNode j = g.getNode j := by
  unfold Graph.addNode Graph.getNode
  by_cases h : (g.nodes.find? (fun p => p.1 == id)).isSome
  · rw [if_pos h]
    dsimp only
    rw [find?_key_map_replace_ne d hij]
  · rw [if_neg h]
    dsimp only
    rw [List.find?_append]
    have : List.find? (fun p => p.1 == j) [(id, d)] = none := by
      simp only [List.find?_singleton]
      have : ¬ ((id, d).1 == j) := by simpa using fun hc => hij hc.symm
      simp [this]
    rw [this]
    cases g.nodes.find? (fun p => p.1 == j) <;> rfl

theorem getNode_addNode_isSome (g : Graph) (id j : String) (d : INodeData)
    (h : (g.getNode j).isSome) : ((g.addNode id d).getNode j).isSome := by
  by_cases hij : j = id
  · subst hij; rw [getNode_addNode_self]; rfl
  · rw [getNode_addNode_ne g id j d hij]; exact h

theorem getNode_addLink (g : Graph) (f t j : String) :
    ((g.addLink f t).getNode j) = g.getNode j := rfl

theorem getNode_linkParent_isSome (now : Int) (childId p j : String)
    (st : Graph × List String) (h : (st.1.getNode j).isSome) :
    (((linkParent now childId p st).1.getNode j)).isSome := by
  unfold linkParent
  by_cases hn : (st.1.getNode p).isNone
  · simp only [hn, if_true, getNode_addLink]
    exact getNode_addNode_isSome _ _ _ _ h
  · simp only [hn, if_false, getNode_addLink]
    exact h

theorem processItem_getNode_isSome (now : Int) (st : Graph × List String)
    (item : IFeedItem) :
    (((processItem now st item).1.getNode item.id)).isSome := by
  unfold processItem
  cases hg : st.1.getNode item.id with
  | some d => simp [hg]
  | none =>
    simp only []
    have h1 : ((st.1.addNode item.id { feedItem := item, added := now }).getNode item.id).isSome := by
      rw [getNode_addNode_self]; rfl
    have h2 : ∀ st' : Graph × List String, (st'.1.getNode item.id).isSome →
        (((match item.parent2 with
          | some p2 =>
            if p2 != "" && item.parent1 != some p2 then linkParent now item.id p2 st' else st'
          | none => st').1.getNode item.id)).isSome := by
      intro st' h'
      cases item.parent2 with
      | none => exact h'
      | some p2 =>
        simp only []
        by_cases hc : p2 != "" && item.parent1 != some p2
        · simp only [hc, if_true]
          exact getNode_linkParent_isSome now item.id p2 item.id st' h'
        · simp only [hc, if_false]
          exact h'
    apply h2
    cases item.parent1 with
    | none => exact h1
    | some p1 =>
      simp only []
      by_cases hc : p1 != ""
      · simp only [hc, if_true]
        exact getNode_linkParent_isSome now item.id p1 item.id _ h1
      · simp only [hc, if_false]
        exact h1

end BasicLemmas

open Visualizer in
/-- C1 amended: drawUpdates skips an item whose id already exists in the
graph entirely, placeholder or not: the node's identity, its edges and its
existing payload are all preserved unchanged, the arriving item's payload
is discarded, and nothing is recorded as added. -/
theorem processItem_skips_existing (g : Graph) (acc : List String)
    (item : IFeedItem) (now : Int) (h : (g.getNode item.id).isSome) :
    processItem now (g, acc) item = (g, acc) := by
  unfold processItem
  rw [Option.isSome_iff_exists] at h
  obtain ⟨d, hd⟩ := h
  simp only [hd]

open Visualizer in
/-- Witness for processItem_skips_existing at a concrete input. -/
theorem processItem_skips_existing_witness :
    ((((Graph.mk [] []).addNode "a" { feedItem := { id := "a" }, added := 0 }).getNode "a").isSome) ∧
    processItem 3 (((Graph.mk [] []).addNode "a" { feedItem := { id := "a" }, added := 0 }), ["a"])
        { id := "a", value := some 7 }
      = (((Graph.mk [] []).addNode "a" { feedItem := { id := "a" }, added := 0 }), ["a"]) :=
  ⟨by decide, processItem_skips_existing _ _ _ _ (by decide)⟩

open Visualizer in
/-- C1 counterexample: after item b arrives with parent a (creating a
placeholder node a) and then the full item a arrives, the node a still
carries the synthetic placeholder payload, not the arriving full item; the
placeholder is never upgraded in place as the claim states. -/
theorem C1_counterexample :
    (((processItems 0 (Graph.mk [] [])
        [{ id := "b", parent1 := some "a" },
         { id := "a", value := some 5, payloadType := "Transaction", confirmed := true }]).1.getNode
        "a").map INodeData.feedItem
      = some { id := "a", confirmed := false }) ∧
    ({ id := "a", confirmed := false } : IFeedItem)
      ≠ { id := "a", value := some 5, payloadType := "Transaction", confirmed := true } := by
  constructor
  · decide
  · decide

open Visualizer in
/-- C7: ingesting the same item twice is idempotent at the graph level:
the second application finds the existing node and changes neither the
graph (no second node, no additional edges) nor the added-id list. -/
theorem processItem_idempotent (g : Graph) (acc : List String)
    (item : IFeedItem) (now now' : Int) :
    processItem now' (processItem now (g, acc) item) item
      = processItem now (g, acc) item := by
  have h := processItem_getNode_isSome now (g, acc) item
  exact processItem_skips_existing _ _ item now' h

/-- Entry of the milestone index _msIndexToNode: the node id and the last
time the index entry was seen or refreshed. -/
structure MsEntry where
  id : String
  lastSeen : Int
deriving DecidableEq

/-- Lookup in the milestone index object by milestone index key. -/
def msLookup (ms : List (Int × MsEntry)) (k : Int) : Option MsEntry :=
  (ms.find? (fun p => p.1 == k)).map Prod.snd

/-- Assignment this._msIndexToNode[k] = e on a JavaScript object: replace
the entry when the key exists, append it otherwise. -/
def msUpsert (ms : List (Int × MsEntry)) (k : Int) (e : MsEntry) :
    List (Int × MsEntry) :=
  if (ms.find? (fun p => p.1 == k)).isSome then
    ms.map (fun p => if p.1 == k then (k, e) else p)
  else
    ms ++ [(k, e)]

/-- Deletion delete this._msIndexToNode[k]. -/
def msDelete (ms : List (Int × MsEntry)) (k : Int) : List (Int × MsEntry) :=
  ms.filter (fun p => !(p.1 == k))

namespace Visualizer

/-- Milestone-entry cleanup used in the removal cascade: clear the entry at
the node's MS key when metaData?.MS is truthy. -/
def clearMsOf (ms : List (Int × MsEntry)) (d : INodeData) : List (Int × MsEntry) :=
  if d.feedItem.msTruthy then
    match d.feedItem.msNum with
    | some n => msDelete ms n
    | none => ms
  else ms

/-- Body of the while loop of Visualizer.removeNodes for one popped target:
walk the links touching the target (the links present when the walk
starts), delete each connecting link, delete any neighbour whose remaining
degree becomes zero (clearing its milestone entry when it carries one),
then delete the target node itself; finally the source looks the target up
again — after its removal — and clears its milestone entry only when that
lookup still finds a node, which never happens. -/
def removalWalkStep (target : String) (acc : Graph × List (Int × MsEntry))
    (link : GraphLink) : Graph × List (Int × MsEntry) :=
  let g1 := acc.1.removeLink link
  let nb := link.otherEnd target
  if (g1.linksOf nb).length = 0 then
    match g1.getNode nb with
    | some nd => (g1.removeNode nb, clearMsOf acc.2 nd)
    | none => (g1, acc.2)
  else (g1, acc.2)

def removeOneNode (g : Graph) (ms : List (Int × MsEntry)) (target : String) :
    Graph × List (Int × MsEntry) :=
  let walk := (g.linksOf target).foldl (removalWalkStep target) (g, ms)
  let g2 := walk.1.removeNode target
  match g2.getNode target with
  | some nd => (g2, clearMsOf walk.2 nd)
  | none => (g2, walk.2)

/-- Visualizer.removeNodes: drain the pending-removal queue front to back;
a falsy (empty) popped id is skipped. -/
def removeNodes (g : Graph) (ms : List (Int × MsEntry)) :
    List String → Graph × List (Int × MsEntry)
  | [] => (g, ms)
  | t :: rest =>
    if t != "" then
      let st := removeOneNode g ms t
      removeNodes st.1 st.2 rest
    else
      removeNodes g ms rest

/-- The eviction while loop of drawUpdates: while the arrival-order id
list exceeds MAX_ITEMS, shift the oldest id and queue it for removal
unless it is falsy or belongs to the current pass's added set. -/
def evictLoop (added : List String) :
    List String → List String → List String × List String
  | [], acc => ([], acc)
  | x :: rest, acc =>
    if (x :: rest).length > MAX_ITEMS then
      evictLoop added rest
        (if x != "" && !(added.contains x) then acc ++ [x] else acc)
    else (x :: rest, acc)

end Visualizer

open Visualizer in
/-- Concrete milestone-bearing node used to exhibit the removeNodes
milestone-entry bug: a graph holding one node m whose payload carries
metaData.MS = 7. -/
def msBugGraph : Graph :=
  (Graph.mk [] []).addNode "m"
    { feedItem := { id := "m",
                    metaData := some [("MS", MetaVal.num 7)],
                    payloadType := "MS" },
      added := 0 }

/-- The milestone index entry pointing at the node of msBugGraph. -/
def msBugIndex : List (Int × MsEntry) := [(7, { id := "m", lastSeen := 0 })]

open Visualizer in
/-- C4 as the code behaves: on the scenario of spec section 8 (items A,
B with parent A, C with parent A), draining a removal of A deletes every
edge touching A and cascades to the now zero-degree neighbours B and C,
leaving an empty graph; but for a removed milestone-bearing node the
target's own milestone-index entry survives the drain, because the code
reads the node back only after it has already been removed. -/
theorem removeNodes_cascades_but_keeps_target_ms :
    ((removeNodes
        (processItems 0 (Graph.mk [] [])
          [{ id := "A" }, { id := "B", parent1 := some "A" },
            { id := "C", parent1 := some "A" }]).1
        [] ["A"]).1 = Graph.mk [] []) ∧
    ((removeNodes msBugGraph msBugIndex ["m"]).1.getNode "m" = none) ∧
    ((removeNodes msBugGraph msBugIndex ["m"]).2 = msBugIndex) := by
  refine ⟨by decide, by decide, by decide⟩

namespace Visualizer

/-- Vertex size constant VERTEX_SIZE_REGULAR. -/
def VERTEX_SIZE_REGULAR : Nat := 20

/-- Vertex size constant VERTEX_SIZE_LARGE. -/
def VERTEX_SIZE_LARGE : Nat := 30

/-- Pending vertex colour. -/
def COLOR_PENDING : String := "0xbbbbbb"

/-- Confirmed zero-value vertex colour. -/
def COLOR_ZERO_CONFIRMED : String := "0x0fc1b7"

/-- Confirmed nonzero-value vertex colour. -/
def COLOR_VALUE_CONFIRMED : String := "0x3f985a"

/-- Milestone vertex colour. -/
def COLOR_MILESTONE : String := "0xb8172d"

/-- Highlighted (search result) vertex colour. -/
def COLOR_SEARCH_RESULT : String := "0xe79c18"

/-- Literal translation of the guard value !== 0 && value !== undefined. -/
def valueNonzero (item : IFeedItem) : Bool :=
  item.value != some 0 && item.value != none

/-- Visualizer.calculateNodeStyle: resolve the colour by the branch chain
highlight, then metaData?.MS, then confirmed (with nonzero or zero value),
else pending; resolve the size to large when metaData?.MS is truthy or the
value is nonzero. -/
def calculateNodeStyle (node : Option INodeData) (highlight : Bool) :
    String × Nat :=
  match node with
  | none => (COLOR_PENDING, VERTEX_SIZE_REGULAR)
  | some nd =>
    let color :=
      if highlight then COLOR_SEARCH_RESULT
      else if nd.feedItem.msTruthy then COLOR_MILESTONE
      else if nd.feedItem.confirmed then
        if valueNonzero nd.feedItem then COLOR_VALUE_CONFIRMED
        else COLOR_ZERO_CONFIRMED
      else COLOR_PENDING
    let size :=
      if nd.feedItem.msTruthy || valueNonzero nd.feedItem then VERTEX_SIZE_LARGE
      else VERTEX_SIZE_REGULAR
    (color, size)

end Visualizer

/-- Modelled from the claim wording of C9: first-applicable-wins precedence
highlighted, milestone, confirmed-with-nonzero-value, confirmed-zero-value,
pending for the colour, and size large exactly for a milestone or a node
carrying a nonzero value. -/
def specNodeStyle (hlighted milestone confirmed nonzeroValue : Bool) :
    String × Nat :=
  (if hlighted then Visualizer.COLOR_SEARCH_RESULT
   else if milestone then Visualizer.COLOR_MILESTONE
   else if confirmed && nonzeroValue then Visualizer.COLOR_VALUE_CONFIRMED
   else if confirmed then Visualizer.COLOR_ZERO_CONFIRMED
   else Visualizer.COLOR_PENDING,
   if milestone || nonzeroValue then Visualizer.VERTEX_SIZE_LARGE
   else Visualizer.VERTEX_SIZE_REGULAR)

open Visualizer in
/-- C9: the per-node style query agrees with the precedence specification
highlighted over milestone over confirmed-with-nonzero-value over
confirmed-zero-value over pending, with size large exactly when the node is
a milestone or carries a nonzero value. -/
theorem calculateNodeStyle_eq_spec (nd : INodeData) (highlight : Bool) :
    calculateNodeStyle (some nd) highlight
      = specNodeStyle highlight nd.feedItem.msTruthy nd.feedItem.confirmed
          (valueNonzero nd.feedItem) := by
  unfold calculateNodeStyle specNodeStyle
  cases highlight <;>
    cases hms : nd.feedItem.msTruthy <;>
      cases hc : nd.feedItem.confirmed <;>
        cases hv : valueNonzero nd.feedItem <;> simp [hms, hc, hv]

namespace Visualizer

/-- Node-data mutation performed for a live milestone node in
highlightMilestones: ensure the metaData object exists and set its MS key
to the milestone index. -/
def setMsMeta (g : Graph) (id : String) (nd : INodeData) (k : Int) : Graph :=
  let md :=
    match nd.feedItem.metaData with
    | some m => m
    | none => []
  let md1 :=
    if (md.find? (fun kv => kv.1 == "MS")).isSome then
      md.map (fun kv => if kv.1 == "MS" then ("MS", MetaVal.num k) else kv)
    else md ++ [("MS", MetaVal.num k)]
  g.setData id { nd with feedItem := { nd.feedItem with metaData := some md1 } }

/-- Body of the key loop of Visualizer.highlightMilestones: when the
entry's node is still in the graph, refresh the entry's lastSeen to now and
stamp the node's MS metadata; otherwise mark the key for deletion when the
entry is older than the 300000 ms staleness window. -/
def hmStep (now : Int) (acc : Graph × List (Int × MsEntry) × List Int)
    (p : Int × MsEntry) : Graph × List (Int × MsEntry) × List Int :=
  match acc.1.getNode p.2.id with
  | some nd =>
    (setMsMeta acc.1 p.2.id nd p.1,
      msUpsert acc.2.1 p.1 { id := p.2.id, lastSeen := now }, acc.2.2)
  | none =>
    if now - p.2.lastSeen > 300000 then (acc.1, acc.2.1, acc.2.2 ++ [p.1])
    else acc

/-- Visualizer.highlightMilestones: walk every milestone-index key,
refreshing entries whose node is present and collecting stale entries whose
node is gone, then delete the collected keys. -/
def highlightMilestones (g : Graph) (ms : List (Int × MsEntry)) (now : Int) :
    Graph × List (Int × MsEntry) :=
  let pass := ms.foldl (hmStep now) (g, ms, [])
  (pass.1, pass.2.2.foldl msDelete pass.2.1)

end Visualizer

section MilestoneLemmas

open Visualizer

/-- Pointwise effect of a tracking pass on one index entry: a live entry is
refreshed to now, a dead entry is untouched. -/
def hmRefresh (g : Graph) (now : Int) (p : Int × MsEntry) : Int × MsEntry :=
  if (g.getNode p.2.id).isSome then (p.1, { id := p.2.id, lastSeen := now })
  else p

/-- Whether a tracking pass marks the entry for deletion: node absent and
entry older than the 300000 ms staleness window. -/
def hmStale (g : Graph) (now : Int) (p : Int × MsEntry) : Bool :=
  !(g.getNode p.2.id).isSome && decide (now - p.2.lastSeen > 300000)

theorem getNode_isSome_setData (g : Graph) (id : String) (d : INodeData)
    (j : String) :
    ((g.setData id d).getNode j).isSome = (g.getNode j).isSome := by
  unfold Graph.setData Graph.getNode
  dsimp only
  rw [Option.isSome_map', Option.isSome_map']
  refine find?_key_isSome_map _ (fun x => ?_) _ _
  by_cases hx : (x.1 == id) = true
  · simp only [if_pos hx]
    exact (beq_iff_eq.mp hx).symm
  · simp only [if_neg hx]

theorem getNode_isSome_setMsMeta (g : Graph) (id : String) (nd : INodeData)
    (k : Int) (j : String) :
    ((setMsMeta g id nd k).getNode j).isSome = (g.getNode j).isSome := by
  unfold setMsMeta
  exact getNode_isSome_setData _ _ _ _

theorem hmStep_presence (now : Int) (acc : Graph × List (Int × MsEntry) × List Int)
    (p : Int × MsEntry) (j : String) :
    ((hmStep now acc p).1.getNode j).isSome = (acc.1.getNode j).isSome := by
  unfold hmStep
  cases hn : acc.1.getNode p.2.id with
  | some nd =>
    dsimp only
    exact getNode_isSome_setMsMeta _ _ _ _ _
  | none =>
    dsimp only
    by_cases hc : now - p.2.lastSeen > 300000
    · simp [hc]
    · simp [hc]

theorem msUpsert_mid (A rest : List (Int × MsEntry)) (k : Int) (e e' : MsEntry)
    (hA : ∀ q ∈ A, ¬ (q.1 = k)) (hrest : ∀ q ∈ rest, ¬ (q.1 = k)) :
    msUpsert (A ++ (k, e) :: rest) k e' = A ++ (k, e') :: rest := by
  unfold msUpsert
  have hfind : (((A ++ (k, e) :: rest)).find? (fun p => p.1 == k)).isSome := by
    rw [List.find?_isSome]
    exact ⟨(k, e), by simp, by simp⟩
  rw [if_pos hfind, List.map_append, List.map_cons]
  congr 1
  · exact map_noop _ _ (fun q hq => by
      have hq1 : ¬ (q.1 == k) = true := by simpa using hA q hq
      simp [hq1])
  · congr 1
    · simp
    · exact map_noop _ _ (fun q hq => by
        have hq1 : ¬ (q.1 == k) = true := by simpa using hrest q hq
        simp [hq1])

theorem hm_fold (g : Graph) (now : Int) :
    ∀ (rest A : List (Int × MsEntry)) (gAcc : Graph) (toRem : List Int),
    (∀ j, (gAcc.getNode j).isSome = (g.getNode j).isSome) →
    (((A ++ rest).map Prod.fst).Nodup) →
    (rest.foldl (hmStep now) (gAcc, A ++ rest, toRem)).2.1
        = A ++ rest.map (hmRefresh g now)
    ∧ (rest.foldl (hmStep now) (gAcc, A ++ rest, toRem)).2.2
        = toRem ++ (rest.filter (hmStale g now)).map Prod.fst := by
  intro rest
  induction rest with
  | nil =>
    intro A gAcc toRem hpres hnd
    simp
  | cons p rest ih =>
    intro A gAcc toRem hpres hnd
    rw [List.foldl_cons]
    have hkeys : ((A ++ p :: rest).map Prod.fst).Nodup := hnd
    have hArest : (∀ q ∈ A, ¬ (q.1 = p.1)) ∧ (∀ q ∈ rest, ¬ (q.1 = p.1)) := by
      rw [List.map_append, List.map_cons, List.nodup_append] at hkeys
      obtain ⟨hA, hcons, hdisj⟩ := hkeys
      rw [List.nodup_cons] at hcons
      constructor
      · intro q hq hqk
        exact hdisj (List.mem_map.mpr ⟨q, hq, rfl⟩) (by simp [hqk])
      · intro q hq hqk
        exact hcons.1 (List.mem_map.mpr ⟨q, hq, hqk⟩)
    cases hn : gAcc.getNode p.2.id with
    | some nd =>
      have hpresent : (g.getNode p.2.id).isSome = true := by
        rw [← hpres p.2.id, hn]
        rfl
      have hstep : hmStep now (gAcc, A ++ p :: rest, toRem) p
          = (setMsMeta gAcc p.2.id nd p.1,
              (A ++ [(p.1, ({ id := p.2.id, lastSeen := now } : MsEntry))]) ++ rest,
              toRem) := by
        unfold hmStep
        dsimp only
        rw [hn]
        dsimp only
        rw [msUpsert_mid A rest p.1 p.2 _ hArest.1 hArest.2]
        simp
      rw [hstep]
      have hpres' : ∀ j, ((setMsMeta gAcc p.2.id nd p.1).getNode j).isSome
          = (g.getNode j).isSome := by
        intro j
        rw [getNode_isSome_setMsMeta, hpres j]
      have hnd' : (((A ++ [(p.1, ({ id := p.2.id, lastSeen := now } : MsEntry))]) ++ rest).map
          Prod.fst).Nodup := by
        have : ((A ++ [(p.1, ({ id := p.2.id, lastSeen := now } : MsEntry))]) ++ rest).map Prod.fst
            = (A ++ p :: rest).map Prod.fst := by
          simp
        rw [this]
        exact hkeys
      have hres := ih (A ++ [(p.1, ({ id := p.2.id, lastSeen := now } : MsEntry))])
        (setMsMeta gAcc p.2.id nd p.1) toRem hpres' hnd'
      constructor
      · rw [hres.1]
        have : hmRefresh g now p = (p.1, { id := p.2.id, lastSeen := now }) := by
          unfold hmRefresh
          rw [if_pos hpresent]
        rw [List.map_cons, this]
        simp
      · rw [hres.2]
        have : hmStale g now p = false := by
          unfold hmStale
          rw [hpresent]
          rfl
        rw [List.filter_cons, this]
        simp
    | none =>
      have habsent : (g.getNode p.2.id).isSome = false := by
        rw [← hpres p.2.id, hn]
        rfl
      have hnd' : (((A ++ [p]) ++ rest).map Prod.fst).Nodup := by
        have : ((A ++ [p]) ++ rest).map Prod.fst = (A ++ p :: rest).map Prod.fst := by
          simp
        rw [this]
        exact hkeys
      by_cases hc : now - p.2.lastSeen > 300000
      · have hstep : hmStep now (gAcc, A ++ p :: rest, toRem) p
            = (gAcc, (A ++ [p]) ++ rest, toRem ++ [p.1]) := by
          unfold hmStep
          dsimp only
          rw [hn]
          dsimp only
          rw [if_pos hc]
          simp
        rw [hstep]
        have hres := ih (A ++ [p]) gAcc (toRem ++ [p.1]) hpres hnd'
        constructor
        · rw [hres.1]
          have : hmRefresh g now p = p := by
            unfold hmRefresh
            rw [if_neg (by simp [habsent])]
          rw [List.map_cons, this]
          simp
        · rw [hres.2]
          have : hmStale g now p = true := by
            unfold hmStale
            rw [habsent]
            simpa using hc
          rw [List.filter_cons, this]
          simp
      · have hstep : hmStep now (gAcc, A ++ p :: rest, toRem) p
            = (gAcc, (A ++ [p]) ++ rest, toRem) := by
          unfold hmStep
          dsimp only
          rw [hn]
          dsimp only
          rw [if_neg hc]
          simp
        rw [hstep]
        have hres := ih (A ++ [p]) gAcc toRem hpres hnd'
        constructor
        · rw [hres.1]
          have : hmRefresh g now p = p := by
            unfold hmRefresh
            rw [if_neg (by simp [habsent])]
          rw [List.map_cons, this]
          simp
        · rw [hres.2]
          have : hmStale g now p = false := by
            unfold hmStale
            rw [habsent]
            simpa using hc
          rw [List.filter_cons, this]
          simp

theorem foldl_msDelete : ∀ (K : List Int) (L : List (Int × MsEntry)),
    K.foldl msDelete L = L.filter (fun p => !(K.contains p.1)) := by
  intro K
  induction K with
  | nil =>
    intro L
    simp [List.filter_true]
  | cons k K ih =>
    intro L
    rw [List.foldl_cons, ih]
    unfold msDelete
    rw [List.filter_filter]
    refine List.filter_congr (fun x hx => ?_)
    rw [List.contains_cons]
    cases h1 : x.1 == k <;> cases h2 : K.contains x.1 <;> simp [h1, h2]

theorem hm_filter_eq (g : Graph) (now : Int) :
    ∀ (ms : List (Int × MsEntry)) (pre : List Int),
    ((ms.map Prod.fst).Nodup) → (∀ q ∈ ms, q.1 ∉ pre) →
    (ms.map (hmRefresh g now)).filter
        (fun p => !((pre ++ (ms.filter (hmStale g now)).map Prod.fst).contains p.1))
      = ms.filterMap (fun p =>
          if (g.getNode p.2.id).isSome then
            some (p.1, { id := p.2.id, lastSeen := now })
          else if now - p.2.lastSeen > 300000 then none
          else some p) := by
  intro ms
  induction ms with
  | nil =>
    intro pre hnd hpre
    simp
  | cons p ms ih =>
    intro pre hnd hpre
    rw [List.map_cons, List.nodup_cons] at hnd
    have hkeytail : ∀ q ∈ ms, ¬ (q.1 = p.1) := by
      intro q hq hqk
      exact hnd.1 (List.mem_map.mpr ⟨q, hq, hqk⟩)
    by_cases hs : hmStale g now p = true
    · have habsent : (g.getNode p.2.id).isSome = false := by
        cases h : (g.getNode p.2.id).isSome
        · rfl
        · unfold hmStale at hs
          rw [h] at hs
          simp at hs
      have hold : now - p.2.lastSeen > 300000 := by
        unfold hmStale at hs
        rw [habsent] at hs
        simpa using hs
      have hrefl : hmRefresh g now p = p := by
        unfold hmRefresh
        rw [if_neg (by simp [habsent])]
      have hpredkeys : (pre ++ ((p :: ms).filter (hmStale g now)).map Prod.fst)
          = (pre ++ [p.1]) ++ (ms.filter (hmStale g now)).map Prod.fst := by
        rw [List.filter_cons, hs]
        simp
      have htail := ih (pre ++ [p.1]) hnd.2 (fun q hq => by
        rw [List.mem_append]
        rintro (h1 | h1)
        · exact hpre q (by simp [hq]) h1
        · exact hkeytail q hq (by simpa using h1))
      have hdrop : (!(((pre ++ [p.1]) ++
          (ms.filter (hmStale g now)).map Prod.fst).contains p.1)) = false := by
        simp
      rw [hpredkeys, List.map_cons, hrefl, List.filter_cons, hdrop,
        if_neg Bool.false_ne_true]
      rw [List.filterMap_cons, if_neg (by simp [habsent]), if_pos hold]
      exact htail
    · have hs' : hmStale g now p = false := by
        cases h : hmStale g now p
        · rfl
        · exact absurd h hs
      have hkey : (hmRefresh g now p).1 = p.1 := by
        unfold hmRefresh
        by_cases h : (g.getNode p.2.id).isSome
        · rw [if_pos h]
        · rw [if_neg h]
      have hpredkeys : (pre ++ ((p :: ms).filter (hmStale g now)).map Prod.fst)
          = pre ++ (ms.filter (hmStale g now)).map Prod.fst := by
        rw [List.filter_cons, hs']
        simp
      have htail := ih pre hnd.2 (fun q hq => hpre q (by simp [hq]))
      have hkeep : (!((pre ++ (ms.filter (hmStale g now)).map Prod.fst).contains
          ((hmRefresh g now p).1))) = true := by
        rw [hkey]
        have h1 : p.1 ∉ pre := hpre p (by simp)
        have h2 : p.1 ∉ (ms.filter (hmStale g now)).map Prod.fst := by
          intro hmem
          rw [List.mem_map] at hmem
          obtain ⟨q, hq, hqk⟩ := hmem
          exact hkeytail q (List.mem_of_mem_filter hq) hqk
        have h3 : p.1 ∉ pre ++ (ms.filter (hmStale g now)).map Prod.fst := by
          rw [List.mem_append]
          rintro (h | h)
          · exact h1 h
          · exact h2 h
        cases hcon : (pre ++ (ms.filter (hmStale g now)).map Prod.fst).contains p.1
        · rfl
        · exact absurd (List.elem_iff.mp hcon) h3
      rw [hpredkeys, List.map_cons, List.filter_cons, hkeep, if_pos rfl]
      rw [List.filterMap_cons]
      by_cases hpr : (g.getNode p.2.id).isSome = true
      · rw [if_pos hpr]
        have : hmRefresh g now p = (p.1, { id := p.2.id, lastSeen := now }) := by
          unfold hmRefresh
          rw [if_pos hpr]
        rw [this, htail]
      · have hpr' : (g.getNode p.2.id).isSome = false := by
          cases h : (g.getNode p.2.id).isSome
          · rfl
          · exact absurd h hpr
        have hnotold : ¬ (now - p.2.lastSeen > 300000) := by
          intro hcon
          have : hmStale g now p = true := by
            unfold hmStale
            rw [hpr']
            simpa using hcon
          rw [this] at hs'
          simp at hs'
        rw [if_neg hpr, if_neg hnotold]
        have : hmRefresh g now p = p := by
          unfold hmRefresh
          rw [if_neg hpr]
        rw [this, htail]

end MilestoneLemmas

open Visualizer in
/-- C8: after a tracking pass at time now, the milestone index is exactly
the original one with every entry whose node is still present refreshed to
lastSeen = now, and an entry whose node is absent removed exactly when its
lastSeen is more than 300000 ms in the past (otherwise kept untouched), so
a milestone record can outlive its node for up to the staleness window. -/
theorem highlightMilestones_staleness (g : Graph) (ms : List (Int × MsEntry))
    (now : Int) (hnd : (ms.map Prod.fst).Nodup) :
    (highlightMilestones g ms now).2
      = ms.filterMap (fun p =>
          if (g.getNode p.2.id).isSome then
            some (p.1, { id := p.2.id, lastSeen := now })
          else if now - p.2.lastSeen > 300000 then none
          else some p) := by
  unfold highlightMilestones
  dsimp only
  have h := hm_fold g now ms [] g [] (fun j => rfl) (by simpa using hnd)
  rw [show (List.foldl (hmStep now) (g, ms, []) ms)
      = (List.foldl (hmStep now) (g, [] ++ ms, []) ms) by rw [List.nil_append]]
  rw [h.1, h.2, List.nil_append, List.nil_append, foldl_msDelete]
  exact hm_filter_eq g now ms [] hnd (by simp)

open Visualizer in
/-- Witness for highlightMilestones_staleness: with one live entry and one
stale dead entry, the pass keeps and refreshes the former and deletes the
latter. -/
theorem highlightMilestones_staleness_witness :
    (([(3, { id := "x", lastSeen := 50 }),
        (4, { id := "y", lastSeen := 10 })].map
          (Prod.fst (α := Int) (β := MsEntry))).Nodup) ∧
    (highlightMilestones
        ((Graph.mk [] []).addNode "x" { feedItem := { id := "x" }, added := 0 })
        [(3, { id := "x", lastSeen := 50 }), (4, { id := "y", lastSeen := 10 })]
        400000).2
      = [(3, { id := "x", lastSeen := 400000 })] := by
  constructor
  · decide
  · rw [highlightMilestones_staleness _ _ _ (by decide)]
    decide

namespace FeedClient

/-- Minimum number of each item to keep (FeedClient.MIN_ITEMS_PER_TYPE in
src/unnamed/part_003). -/
def MIN_ITEMS_PER_TYPE : Nat := 10

/-- Reconciler state: the retained window _items (newest first) and the
existing-id index _existingIds. -/
structure FeedState where
  items : List IFeedItem := []
  existingIds : List String := []
deriving DecidableEq

/-- A transactions subscription message after decoding: the decoded feed
items (convertItem, the wire decoding, is the transport collaborator's
job) and the confirmed id list. -/
structure SubscriptionMessage where
  items : List IFeedItem
  confirmed : List String

/-- The confirmed loop body: _items.find(c => c.id === confirmed) mutates
the first stored item with the id, flipping its confirmed flag. -/
def setConfirmedFirst (items : List IFeedItem) (c : String) : List IFeedItem :=
  match items with
  | [] => []
  | x :: rest =>
    if x.id == c then { x with confirmed := true } :: rest
    else x :: setConfirmedFirst rest c

/-- JavaScript slice(-k) for k possibly exceeding the length: the last k
elements. -/
def sliceLast (l : List IFeedItem) (k : Int) : List IFeedItem :=
  l.drop (l.length - k.toNat)

/-- The category filter for zero-value transactions. -/
def zeroP (t : IFeedItem) : Bool :=
  t.payloadType == "Transaction" && t.value == some 0

/-- The category filter for nonzero-value transactions (value !== 0 under
strict JavaScript inequality, which an undefined value also satisfies). -/
def nonZeroP (t : IFeedItem) : Bool :=
  t.payloadType == "Transaction" && t.value != some 0

/-- The category filter for Index payloads. -/
def indexP (t : IFeedItem) : Bool := t.payloadType == "Index"

/-- The category filter for MS payloads. -/
def msP (t : IFeedItem) : Bool := t.payloadType == "MS"

/-- The retention sweep of the transactions handler (part_003 lines
162-187): for each of the four pruned categories, slice off the oldest
items beyond the MIN_ITEMS_PER_TYPE floor, then drop the collected items
from the window. JavaScript removeItems.includes compares object identity;
stored items are distinct objects, which the theorems model with a Nodup
hypothesis on the window as values. -/
def retentionSweep (items : List IFeedItem) : List IFeedItem :=
  let removeItems : List IFeedItem := []
  let zero := items.filter zeroP
  let zeroToRemoveCount : Int := (zero.length : Int) - MIN_ITEMS_PER_TYPE
  let removeItems :=
    if zeroToRemoveCount > 0 then removeItems ++ sliceLast zero zeroToRemoveCount
    else removeItems
  let nonZero := items.filter nonZeroP
  let nonZeroToRemoveCount : Int := (nonZero.length : Int) - MIN_ITEMS_PER_TYPE
  let removeItems :=
    if nonZeroToRemoveCount > 0 then removeItems ++ sliceLast nonZero nonZeroToRemoveCount
    else removeItems
  let indexPayload := items.filter indexP
  let indexPayloadToRemoveCount : Int :=
    (indexPayload.length : Int) - MIN_ITEMS_PER_TYPE
  let removeItems :=
    if indexPayloadToRemoveCount > 0 then
      removeItems ++ sliceLast indexPayload indexPayloadToRemoveCount
    else removeItems
  let msPayload := items.filter msP
  let msPayloadToRemoveCount : Int := (msPayload.length : Int) - MIN_ITEMS_PER_TYPE
  let removeItems :=
    if msPayloadToRemoveCount > 0 then
      removeItems ++ sliceLast msPayload msPayloadToRemoveCount
    else removeItems
  items.filter (fun t => !(removeItems.contains t))

/-- The transactions handler of FeedClient.subscribe (part_003 lines
142-190, identical in the relevant logic to feedClient.ts): merge
confirmations into the window, filter arriving items against the
existing-id index, and when any survive, prepend them to the window, run
the retention sweep, and rebuild the existing-id index from the pruned
window. Returns the new state and the filteredNewItems handed to the
subscriber fan-out. -/
def handleTransactions (st : FeedState) (msg : SubscriptionMessage) :
    FeedState × List IFeedItem :=
  let items1 := msg.confirmed.foldl setConfirmedFirst st.items
  let filteredNewItems := msg.items.filter (fun nh => !(st.existingIds.contains nh.id))
  if filteredNewItems.length > 0 then
    let items2 := filteredNewItems ++ items1
    let items3 := retentionSweep items2
    (⟨items3, items3.map (fun t => t.id)⟩, filteredNewItems)
  else
    ({ st with items := items1 }, filteredNewItems)

/-- A registered subscriber callback; a callback that throws is an error
result. -/
def Listener : Type := List IFeedItem → List String → Except String Unit

/-- The fan-out loop for (const sub in this._subscribers) over the
registration-ordered subscribers: call each with the same batch; an
exception from one callback propagates out of the loop, so the listeners
after it are not called. Returns the ids called in order and the first
error. -/
def fanOut (subs : List (String × Listener)) (newItems : List IFeedItem)
    (confirmed : List String) : List String × Option String :=
  match subs with
  | [] => ([], none)
  | (sid, f) :: rest =>
    match f newItems confirmed with
    | Except.ok _ =>
      let r := fanOut rest newItems confirmed
      (sid :: r.1, r.2)
    | Except.error e => ([sid], some e)

end FeedClient

open FeedClient in
/-- C6 counterexample: with two registered listeners of which the first
throws, the second listener is never called for the cycle, so a failure in
one listener does prevent delivery to the remaining listeners. -/
theorem C6_counterexample :
    (fanOut [("s1", fun _ _ => Except.error "boom"),
             ("s2", fun _ _ => Except.ok ())] [] []).1 = ["s1"] ∧
    ("s2" : String) ∉ (fanOut [("s1", fun _ _ => Except.error "boom"),
             ("s2", fun _ _ => Except.ok ())] [] []).1 := by
  constructor
  · rfl
  · intro h
    rw [show (fanOut [("s1", fun _ _ => Except.error "boom"),
        ("s2", fun _ _ => Except.ok ())] [] []).1 = ["s1"] from rfl] at h
    simp at h

open FeedClient in
/-- C6 amended: each cycle the fan-out calls the registered listeners in
registration order with the same batch, each at most once; when no
listener throws, every listener is called exactly once; a thrown exception
stops the loop after the throwing listener, so the remaining listeners
receive nothing. -/
theorem fanOut_delivery (subs : List (String × FeedClient.Listener))
    (newItems : List IFeedItem) (confirmed : List String) :
    ((∀ s ∈ subs, s.2 newItems confirmed = Except.ok ()) →
        fanOut subs newItems confirmed = (subs.map Prod.fst, none))
  ∧ (∀ pre s post e, subs = pre ++ s :: post →
        (∀ q ∈ pre, q.2 newItems confirmed = Except.ok ()) →
        s.2 newItems confirmed = Except.error e →
        fanOut subs newItems confirmed = (pre.map Prod.fst ++ [s.1], some e)) := by
  constructor
  · intro hok
    induction subs with
    | nil => rfl
    | cons s rest ih =>
      obtain ⟨sid, f⟩ := s
      unfold fanOut
      rw [show f newItems confirmed = Except.ok () from hok (sid, f) (by simp)]
      rw [ih (fun q hq => hok q (by simp [hq]))]
      rfl
  · intro pre
    induction pre generalizing subs with
    | nil =>
      intro s post e hsubs hpre hfail
      subst hsubs
      obtain ⟨sid, f⟩ := s
      rw [List.nil_append]
      unfold fanOut
      rw [show f newItems confirmed = Except.error e from hfail]
      rfl
    | cons q pre ih =>
      intro s post e hsubs hpre hfail
      subst hsubs
      obtain ⟨qid, qf⟩ := q
      rw [List.cons_append]
      unfold fanOut
      rw [show qf newItems confirmed = Except.ok () from hpre (qid, qf) (by simp)]
      rw [ih (pre ++ s :: post) s post e rfl
        (fun r hr => hpre r (by simp [hr])) hfail]
      rfl

open FeedClient in
/-- Witness for fanOut_delivery: a concrete three-listener cycle where the
second throws delivers to the first two only. -/
theorem fanOut_delivery_witness :
    fanOut [("s1", fun _ _ => Except.ok ()),
            ("s2", fun _ _ => Except.error "bad"),
            ("s3", fun _ _ => Except.ok ())] [] []
      = (["s1", "s2"], some "bad") :=
  (fanOut_delivery _ [] []).2
    [("s1", fun _ _ => Except.ok ())]
    ("s2", fun _ _ => Except.error "bad")
    [("s3", fun _ _ => Except.ok ())] "bad" rfl
    (by
      intro q hq
      rw [show q = (("s1" : String), (fun _ _ => Except.ok () : FeedClient.Listener))
        from by simpa using hq])
    rfl

section ReconcilerLemmas

open FeedClient

theorem setConfirmedFirst_map_id (items : List IFeedItem) (c : String) :
    (setConfirmedFirst items c).map (fun t => t.id) = items.map (fun t => t.id) := by
  induction items with
  | nil => rfl
  | cons x rest ih =>
    unfold setConfirmedFirst
    by_cases hx : (x.id == c) = true
    · rw [if_pos hx]
      rfl
    · rw [if_neg hx, List.map_cons, List.map_cons, ih]

theorem confirmedFold_map_id (confirmed : List String) :
    ∀ items : List IFeedItem,
    (confirmed.foldl setConfirmedFirst items).map (fun t => t.id)
      = items.map (fun t => t.id) := by
  induction confirmed with
  | nil => intro items; rfl
  | cons c rest ih =>
    intro items
    rw [List.foldl_cons, ih, setConfirmedFirst_map_id]

end ReconcilerLemmas

open FeedClient in
/-- C10: handling any subscription message keeps the existing-id index
equal to the ids of the currently retained window (it is rebuilt from the
pruned list whenever new items arrive, and is untouched otherwise); and
under that invariant, dedup is only relative to the current window: an
arriving item whose id is not among the retained items' ids - even one
ingested before and dropped since - is accepted into filteredNewItems and
handed to the subscribers again as a new item. -/
theorem reconciler_existing_ids (st : FeedState) (msg : SubscriptionMessage)
    (hinv : st.existingIds = st.items.map (fun t => t.id)) :
    ((handleTransactions st msg).1.existingIds
        = (handleTransactions st msg).1.items.map (fun t => t.id))
  ∧ (∀ it, it ∈ msg.items → it.id ∉ st.items.map (fun t => t.id) →
      it ∈ (handleTransactions st msg).2) := by
  constructor
  · unfold handleTransactions
    by_cases hlen : (msg.items.filter
        (fun nh => !(st.existingIds.contains nh.id))).length > 0
    · rw [if_pos hlen]
    · rw [if_neg hlen]
      dsimp only
      rw [confirmedFold_map_id, ← hinv]
  · intro it hmem hid
    unfold handleTransactions
    have hpred : (!(st.existingIds.contains it.id)) = true := by
      rw [hinv]
      cases hcon : (st.items.map (fun t => t.id)).contains it.id
      · rfl
      · exact absurd (List.elem_iff.mp hcon) hid
    have hin : it ∈ msg.items.filter (fun nh => !(st.existingIds.contains nh.id)) :=
      List.mem_filter.mpr ⟨hmem, hpred⟩
    by_cases hlen : (msg.items.filter
        (fun nh => !(st.existingIds.contains nh.id))).length > 0
    · rw [if_pos hlen]
      exact hin
    · rw [if_neg hlen]
      exact hin

open FeedClient in
/-- Witness for reconciler_existing_ids: an id dropped from the window is
re-accepted and the index matches the window after handling. -/
theorem reconciler_existing_ids_witness :
    ((["x"] : List String) = ([{ id := "x" }] : List IFeedItem).map (fun t => t.id)) ∧
    ((handleTransactions ⟨[{ id := "x" }], ["x"]⟩ ⟨[{ id := "y" }], []⟩).1.existingIds
        = (handleTransactions ⟨[{ id := "x" }], ["x"]⟩
            ⟨[{ id := "y" }], []⟩).1.items.map (fun t => t.id))
  ∧ (({ id := "y" } : IFeedItem)
      ∈ (handleTransactions ⟨[{ id := "x" }], ["x"]⟩ ⟨[{ id := "y" }], []⟩).2) := by
  refine ⟨by decide, ?_, ?_⟩
  · exact (reconciler_existing_ids _ _ (by decide)).1
  · exact (reconciler_existing_ids _ _ (by decide)).2 _ (by decide) (by decide)

section RetentionLemmas

open FeedClient

/-- The items removed by one retention sweep: for each pruned category,
everything beyond the newest MIN_ITEMS_PER_TYPE. -/
def sweepRemoves (items : List IFeedItem) : List IFeedItem :=
  (items.filter zeroP).drop MIN_ITEMS_PER_TYPE
    ++ ((items.filter nonZeroP).drop MIN_ITEMS_PER_TYPE
    ++ ((items.filter indexP).drop MIN_ITEMS_PER_TYPE
    ++ (items.filter msP).drop MIN_ITEMS_PER_TYPE))

theorem catRemove_eq (R l : List IFeedItem) :
    (if ((l.length : Int) - (MIN_ITEMS_PER_TYPE : Int)) > 0
     then R ++ sliceLast l ((l.length : Int) - (MIN_ITEMS_PER_TYPE : Int)) else R)
      = R ++ l.drop MIN_ITEMS_PER_TYPE := by
  by_cases h : ((l.length : Int) - (MIN_ITEMS_PER_TYPE : Int)) > 0
  · rw [if_pos h]
    congr 1
    unfold sliceLast
    congr 1
    omega
  · rw [if_neg h]
    have hlen : l.length ≤ MIN_ITEMS_PER_TYPE := by omega
    rw [List.drop_eq_nil_of_le hlen, List.append_nil]

theorem retentionSweep_eq (items : List IFeedItem) :
    retentionSweep items
      = items.filter (fun t => !((sweepRemoves items).contains t)) := by
  unfold retentionSweep
  dsimp only
  rw [catRemove_eq, catRemove_eq, catRemove_eq, catRemove_eq]
  unfold sweepRemoves
  simp only [List.nil_append, List.append_assoc]

theorem contains_eq_true_iff {α : Type} [BEq α] [LawfulBEq α] (l : List α)
    (a : α) : l.contains a = true ↔ a ∈ l :=
  List.elem_iff

theorem filter_not_mem_drop (l : List IFeedItem) (m : Nat) (hnd : l.Nodup) :
    l.filter (fun t => !((l.drop m).contains t)) = l.take m := by
  have hsplit := List.take_append_drop m l
  have hnd2 : (l.take m ++ l.drop m).Nodup := by
    rw [hsplit]
    exact hnd
  rw [List.nodup_append] at hnd2
  rw [show l.filter (fun t => !((l.drop m).contains t))
      = (l.take m ++ l.drop m).filter (fun t => !((l.drop m).contains t)) from by
    rw [hsplit]]
  rw [List.filter_append]
  have h1 : (l.take m).filter (fun t => !((l.drop m).contains t)) = l.take m := by
    rw [List.filter_eq_self]
    intro a ha
    cases hcon : (l.drop m).contains a
    · rfl
    · exact absurd (List.elem_iff.mp hcon) (hnd2.2.2 ha)
  have h2 : (l.drop m).filter (fun t => !((l.drop m).contains t)) = [] := by
    rw [List.filter_eq_nil_iff]
    intro a ha
    rw [(contains_eq_true_iff _ _).mpr ha]
    simp
  rw [h1, h2, List.append_nil]

theorem filter_sweep_core (l : List IFeedItem) (p : IFeedItem → Bool)
    (R : List IFeedItem) (hnd : l.Nodup)
    (hiff : ∀ x, p x = true →
      (x ∈ R ↔ x ∈ (l.filter p).drop MIN_ITEMS_PER_TYPE)) :
    (l.filter (fun t => !(R.contains t))).filter p
      = (l.filter p).take MIN_ITEMS_PER_TYPE := by
  rw [List.filter_comm]
  have heq : (l.filter p).filter (fun t => !(R.contains t))
      = (l.filter p).filter
          (fun t => !(((l.filter p).drop MIN_ITEMS_PER_TYPE).contains t)) := by
    refine List.filter_congr (fun x hx => ?_)
    have hp := List.of_mem_filter hx
    have hi := hiff x hp
    cases h1 : R.contains x <;>
      cases h2 : ((l.filter p).drop MIN_ITEMS_PER_TYPE).contains x
    · rfl
    · have := (contains_eq_true_iff R x).mpr (hi.mpr ((contains_eq_true_iff _ x).mp h2))
      rw [h1] at this
      simp at this
    · have := (contains_eq_true_iff _ x).mpr (hi.mp ((contains_eq_true_iff R x).mp h1))
      rw [h2] at this
      simp at this
    · rfl
  rw [heq]
  exact filter_not_mem_drop (l.filter p) _ (List.Nodup.filter _ hnd)

theorem zeroP_excl (t : IFeedItem) (h : zeroP t = true) :
    nonZeroP t = false ∧ indexP t = false ∧ msP t = false := by
  unfold zeroP at h
  rw [Bool.and_eq_true] at h
  have hpt : t.payloadType = "Transaction" := beq_iff_eq.mp h.1
  have hv : t.value = some 0 := beq_iff_eq.mp h.2
  unfold nonZeroP indexP msP
  rw [hpt, hv]
  refine ⟨by decide, by decide, by decide⟩

theorem nonZeroP_excl (t : IFeedItem) (h : nonZeroP t = true) :
    zeroP t = false ∧ indexP t = false ∧ msP t = false := by
  unfold nonZeroP at h
  rw [Bool.and_eq_true] at h
  have hpt : t.payloadType = "Transaction" := beq_iff_eq.mp h.1
  have hv : (t.value == some 0) = false := by
    cases hb : t.value == some 0
    · rfl
    · rw [show (t.value != some 0) = !(t.value == some 0) from rfl, hb] at h
      exact absurd h.2 (by simp)
  unfold zeroP indexP msP
  rw [hpt, hv]
  refine ⟨by decide, by decide, by decide⟩

theorem indexP_excl (t : IFeedItem) (h : indexP t = true) :
    zeroP t = false ∧ nonZeroP t = false ∧ msP t = false := by
  unfold indexP at h
  have hpt : t.payloadType = "Index" := beq_iff_eq.mp h
  unfold zeroP nonZeroP msP
  rw [hpt]
  refine ⟨?_, ?_, by decide⟩
  · rw [show (("Index" : String) == "Transaction") = false from by decide,
      Bool.false_and]
  · rw [show (("Index" : String) == "Transaction") = false from by decide,
      Bool.false_and]

theorem msP_excl (t : IFeedItem) (h : msP t = true) :
    zeroP t = false ∧ nonZeroP t = false ∧ indexP t = false := by
  unfold msP at h
  have hpt : t.payloadType = "MS" := beq_iff_eq.mp h
  unfold zeroP nonZeroP indexP
  rw [hpt]
  refine ⟨?_, ?_, by decide⟩
  · rw [show (("MS" : String) == "Transaction") = false from by decide,
      Bool.false_and]
  · rw [show (("MS" : String) == "Transaction") = false from by decide,
      Bool.false_and]

theorem mem_sweepRemoves_iff (items : List IFeedItem) (x : IFeedItem) :
    x ∈ sweepRemoves items
      ↔ (x ∈ (items.filter zeroP).drop MIN_ITEMS_PER_TYPE
        ∨ x ∈ (items.filter nonZeroP).drop MIN_ITEMS_PER_TYPE
        ∨ x ∈ (items.filter indexP).drop MIN_ITEMS_PER_TYPE
        ∨ x ∈ (items.filter msP).drop MIN_ITEMS_PER_TYPE) := by
  unfold sweepRemoves
  simp [List.mem_append]

theorem sweep_filter_zero (items : List IFeedItem) (hnd : items.Nodup) :
    (retentionSweep items).filter zeroP
      = (items.filter zeroP).take MIN_ITEMS_PER_TYPE := by
  rw [retentionSweep_eq]
  refine filter_sweep_core items zeroP (sweepRemoves items) hnd (fun x hx => ?_)
  rw [mem_sweepRemoves_iff]
  constructor
  · rintro (h | h | h | h)
    · exact h
    · have := List.of_mem_filter (List.mem_of_mem_drop h)
      rw [(zeroP_excl x hx).1] at this
      simp at this
    · have := List.of_mem_filter (List.mem_of_mem_drop h)
      rw [(zeroP_excl x hx).2.1] at this
      simp at this
    · have := List.of_mem_filter (List.mem_of_mem_drop h)
      rw [(zeroP_excl x hx).2.2] at this
      simp at this
  · intro h
    exact Or.inl h

theorem sweep_filter_nonZero (items : List IFeedItem) (hnd : items.Nodup) :
    (retentionSweep items).filter nonZeroP
      = (items.filter nonZeroP).take MIN_ITEMS_PER_TYPE := by
  rw [retentionSweep_eq]
  refine filter_sweep_core items nonZeroP (sweepRemoves items) hnd (fun x hx => ?_)
  rw [mem_sweepRemoves_iff]
  constructor
  · rintro (h | h | h | h)
    · have := List.of_mem_filter (List.mem_of_mem_drop h)
      rw [(nonZeroP_excl x hx).1] at this
      simp at this
    · exact h
    · have := List.of_mem_filter (List.mem_of_mem_drop h)
      rw [(nonZeroP_excl x hx).2.1] at this
      simp at this
    · have := List.of_mem_filter (List.mem_of_mem_drop h)
      rw [(nonZeroP_excl x hx).2.2] at this
      simp at this
  · intro h
    exact Or.inr (Or.inl h)

theorem sweep_filter_index (items : List IFeedItem) (hnd : items.Nodup) :
    (retentionSweep items).filter indexP
      = (items.filter indexP).take MIN_ITEMS_PER_TYPE := by
  rw [retentionSweep_eq]
  refine filter_sweep_core items indexP (sweepRemoves items) hnd (fun x hx => ?_)
  rw [mem_sweepRemoves_iff]
  constructor
  · rintro (h | h | h | h)
    · have := List.of_mem_filter (List.mem_of_mem_drop h)
      rw [(indexP_excl x hx).1] at this
      simp at this
    · have := List.of_mem_filter (List.mem_of_mem_drop h)
      rw [(indexP_excl x hx).2.1] at this
      simp at this
    · exact h
    · have := List.of_mem_filter (List.mem_of_mem_drop h)
      rw [(indexP_excl x hx).2.2] at this
      simp at this
  · intro h
    exact Or.inr (Or.inr (Or.inl h))

theorem sweep_filter_ms (items : List IFeedItem) (hnd : items.Nodup) :
    (retentionSweep items).filter msP
      = (items.filter msP).take MIN_ITEMS_PER_TYPE := by
  rw [retentionSweep_eq]
  refine filter_sweep_core items msP (sweepRemoves items) hnd (fun x hx => ?_)
  rw [mem_sweepRemoves_iff]
  constructor
  · rintro (h | h | h | h)
    · have := List.of_mem_filter (List.mem_of_mem_drop h)
      rw [(msP_excl x hx).1] at this
      simp at this
    · have := List.of_mem_filter (List.mem_of_mem_drop h)
      rw [(msP_excl x hx).2.1] at this
      simp at this
    · have := List.of_mem_filter (List.mem_of_mem_drop h)
      rw [(msP_excl x hx).2.2] at this
      simp at this
    · exact h
  · intro h
    exact Or.inr (Or.inr (Or.inr h))

theorem sweep_keeps_uncategorized (items : List IFeedItem) (t : IFeedItem)
    (ht : t ∈ items) (hz : zeroP t = false) (hnz : nonZeroP t = false)
    (hi : indexP t = false) (hm : msP t = false) :
    t ∈ retentionSweep items := by
  rw [retentionSweep_eq]
  refine List.mem_filter.mpr ⟨ht, ?_⟩
  cases hcon : (sweepRemoves items).contains t
  · rfl
  · exfalso
    have hmem := List.elem_iff.mp hcon
    rw [mem_sweepRemoves_iff] at hmem
    rcases hmem with h | h | h | h
    · have := List.of_mem_filter (List.mem_of_mem_drop h)
      rw [hz] at this
      simp at this
    · have := List.of_mem_filter (List.mem_of_mem_drop h)
      rw [hnz] at this
      simp at this
    · have := List.of_mem_filter (List.mem_of_mem_drop h)
      rw [hi] at this
      simp at this
    · have := List.of_mem_filter (List.mem_of_mem_drop h)
      rw [hm] at this
      simp at this

end RetentionLemmas

open FeedClient in
/-- C5: after a burst of 1000 zero-value Transaction items that are new to
the window, the reconciler retains exactly MIN_ITEMS_PER_TYPE zero-value
transactions - the most recent ones, the oldest beyond the floor being
dropped - while every other category keeps its newest
MIN_ITEMS_PER_TYPE items (hence at least the floor whenever it previously
held at least the floor), and items outside every pruned category are
untouched. -/
theorem retention_after_zero_burst (st : FeedState) (burst : List IFeedItem)
    (hlen : burst.length = 1000)
    (hcat : ∀ b ∈ burst, zeroP b = true)
    (hfresh : ∀ b ∈ burst, (st.existingIds.contains b.id) = false)
    (hnodup : (burst ++ st.items).Nodup) :
    ((handleTransactions st ⟨burst, []⟩).1.items.filter zeroP
        = (burst ++ st.items.filter zeroP).take MIN_ITEMS_PER_TYPE)
  ∧ (((handleTransactions st ⟨burst, []⟩).1.items.filter zeroP).length
        = MIN_ITEMS_PER_TYPE)
  ∧ ((handleTransactions st ⟨burst, []⟩).1.items.filter nonZeroP
        = (st.items.filter nonZeroP).take MIN_ITEMS_PER_TYPE)
  ∧ ((handleTransactions st ⟨burst, []⟩).1.items.filter indexP
        = (st.items.filter indexP).take MIN_ITEMS_PER_TYPE)
  ∧ ((handleTransactions st ⟨burst, []⟩).1.items.filter msP
        = (st.items.filter msP).take MIN_ITEMS_PER_TYPE)
  ∧ (∀ t ∈ st.items, zeroP t = false → nonZeroP t = false → indexP t = false →
      msP t = false → t ∈ (handleTransactions st ⟨burst, []⟩).1.items) := by
  have hfilters : burst.filter (fun nh => !(st.existingIds.contains nh.id)) = burst :=
    List.filter_eq_self.mpr (fun b hb => by rw [hfresh b hb]; rfl)
  have hmain : (handleTransactions st ⟨burst, []⟩).1.items
      = retentionSweep (burst ++ st.items) := by
    unfold handleTransactions
    dsimp only
    rw [hfilters]
    rw [if_pos (by rw [hlen]; decide), List.foldl_nil]
  have hzfilter : (burst ++ st.items).filter zeroP = burst ++ st.items.filter zeroP := by
    rw [List.filter_append, List.filter_eq_self.mpr hcat]
  have hnzburst : burst.filter nonZeroP = [] :=
    List.filter_eq_nil_iff.mpr (fun b hb => by
      rw [(zeroP_excl b (hcat b hb)).1]
      simp)
  have hixburst : burst.filter indexP = [] :=
    List.filter_eq_nil_iff.mpr (fun b hb => by
      rw [(zeroP_excl b (hcat b hb)).2.1]
      simp)
  have hmsburst : burst.filter msP = [] :=
    List.filter_eq_nil_iff.mpr (fun b hb => by
      rw [(zeroP_excl b (hcat b hb)).2.2]
      simp)
  refine ⟨?_, ?_, ?_, ?_, ?_, ?_⟩
  · rw [hmain, sweep_filter_zero _ hnodup, hzfilter]
  · rw [hmain, sweep_filter_zero _ hnodup, hzfilter, List.length_take]
    have : 1000 ≤ (burst ++ st.items.filter zeroP).length := by
      rw [List.length_append, hlen]
      omega
    have hmin : MIN_ITEMS_PER_TYPE = 10 := rfl
    omega
  · rw [hmain, sweep_filter_nonZero _ hnodup, List.filter_append, hnzburst,
      List.nil_append]
  · rw [hmain, sweep_filter_index _ hnodup, List.filter_append, hixburst,
      List.nil_append]
  · rw [hmain, sweep_filter_ms _ hnodup, List.filter_append, hmsburst,
      List.nil_append]
  · intro t ht hz hnz hi hm
    rw [hmain]
    exact sweep_keeps_uncategorized _ t (by simp [ht]) hz hnz hi hm

open FeedClient in
/-- Concrete burst of 1000 pairwise distinct zero-value Transaction items
used to witness the retention theorem. -/
def burst1000 : List IFeedItem :=
  (List.range 1000).map (fun i =>
    { id := String.mk (List.replicate i 'a'),
      payloadType := "Transaction",
      value := some 0 })

set_option maxRecDepth 4000 in
open FeedClient in
/-- Witness for retention_after_zero_burst: the burst hypotheses hold for
burst1000 against the empty reconciler state, and the theorem applies. -/
theorem retention_after_zero_burst_witness :
    (burst1000.length = 1000)
  ∧ (∀ b ∈ burst1000, zeroP b = true)
  ∧ (∀ b ∈ burst1000, ((FeedState.mk [] []).existingIds.contains b.id) = false)
  ∧ ((burst1000 ++ (FeedState.mk [] []).items).Nodup)
  ∧ (((handleTransactions (FeedState.mk [] []) ⟨burst1000, []⟩).1.items.filter
        zeroP).length = MIN_ITEMS_PER_TYPE) := by
  have hlen : burst1000.length = 1000 := by
    unfold burst1000
    rw [List.length_map, List.length_range]
  have hcat : ∀ b ∈ burst1000, zeroP b = true := by
    intro b hb
    unfold burst1000 at hb
    rw [List.mem_map] at hb
    obtain ⟨i, _, rfl⟩ := hb
    rfl
  have hfresh : ∀ b ∈ burst1000,
      ((FeedState.mk [] []).existingIds.contains b.id) = false :=
    fun b _ => rfl
  have hnodup : (burst1000 ++ (FeedState.mk [] []).items).Nodup := by
    rw [List.append_nil]
    unfold burst1000
    refine List.Nodup.map ?_ (List.nodup_range 1000)
    intro i j hij
    simp only [IFeedItem.mk.injEq] at hij
    have hs := hij.1
    injection hs with hdata
    have := congrArg List.length hdata
    simpa using this
  exact ⟨hlen, hcat, hfresh, hnodup,
    (retention_after_zero_burst (FeedState.mk [] []) burst1000
      hlen hcat hfresh hnodup).2.1⟩

namespace Visualizer

/-- Start of each pruning pass: clear graphId on every node. -/
def clearGraphIds (g : Graph) : Graph :=
  { g with nodes := g.nodes.map (fun p => (p.1, { p.2 with graphId := none })) }

/-- The while loop of Visualizer.calculateSubGraph, with fuel bounding the
number of shifts (one more than the node count always suffices, because
every expansion enqueues only unmarked nodes not already queued): shift an
id, record it as visited when truthy, and if its node exists and carries no
graphId yet, mark it, fold its arrival time into mostRecentChange, and
enqueue its unmarked linked neighbours that are not already queued. -/
def calculateSubGraphLoop (gid : Nat) :
    Nat → Graph → List String → List String → Int → Graph × List String × Int
  | 0, g, _, visited, mrc => (g, visited, mrc)
  | fuel + 1, g, queue, visited, mrc =>
    match queue with
    | [] => (g, visited, mrc)
    | nodeId :: rest =>
      if nodeId != "" then
        let visited1 := visited ++ [nodeId]
        match g.getNode nodeId with
        | some nd =>
          if nd.graphId.isNone then
            let g1 := g.setData nodeId { nd with graphId := some gid }
            let mrc1 := if nd.added > mrc then nd.added else mrc
            let queue1 := (g1.linksOf nodeId).foldl
              (fun q link =>
                let nb := link.otherEnd nodeId
                match g1.getNode nb with
                | some nbd =>
                  if nbd.graphId.isNone && !(q.contains nb) then q ++ [nb] else q
                | none => q) rest
            calculateSubGraphLoop gid fuel g1 queue1 visited1 mrc1
          else calculateSubGraphLoop gid fuel g rest visited1 mrc
        | none => calculateSubGraphLoop gid fuel g rest visited1 mrc
      else calculateSubGraphLoop gid fuel g rest visited mrc

/-- Visualizer.calculateSubGraph: breadth-first walk from the start node
over undirected adjacency, marking reached nodes with the component id and
reporting the visited ids and the maximum added time among them. -/
def calculateSubGraph (g : Graph) (startNodeId : String) (graphId : Nat) :
    Graph × List String × Int :=
  calculateSubGraphLoop graphId (g.nodes.length + 1) g [startNodeId] [] 0

/-- The forEachNode enumeration of removeSmallNetworks: visit the node ids
present at the start of the pass, running calculateSubGraph from every node
that still has no graphId; gid counters start at 1. -/
def enumerateSubGraphs (g : Graph) : Graph × List (List String × Int) :=
  (clearGraphIds g).ids.foldl
    (fun (acc : Graph × List (List String × Int)) id =>
      match acc.1.getNode id with
      | some nd =>
        if nd.graphId.isNone then
          let r := calculateSubGraph acc.1 id (acc.2.length + 1)
          (r.1, acc.2 ++ [(r.2.1, r.2.2)])
        else acc
      | none => acc)
    (clearGraphIds g, [])

/-- One iteration of the do-while loop of removeSmallNetworks: enumerate
the components; queue for removal every component whose member count is
below 3 percent of the arrival-order id list length (exact arithmetic:
100 * count < 3 * existingLen) and whose mostRecentChange is more than
60000 ms old; drain the queue when anything was eligible. Returns the new
graph, milestone index, and the removed flag. -/
def removeSmallNetworksPass (g : Graph) (ms : List (Int × MsEntry))
    (existingLen : Nat) (now : Int) : Graph × List (Int × MsEntry) × Bool :=
  let e := enumerateSubGraphs g
  let qr := e.2.foldl
    (fun (acc : List String × Bool) sub =>
      if 100 * sub.1.length < 3 * existingLen && decide (now - sub.2 > 60000) then
        (acc.1 ++ sub.1, true)
      else acc) ([], false)
  if qr.2 then
    let r := removeNodes e.1 ms qr.1
    (r.1, r.2, true)
  else (e.1, ms, false)

/-- The do-while loop of removeSmallNetworks with fuel (every productive
pass removes nodes, so one more than the node count suffices for every
graph whose node ids are nonempty). -/
def removeSmallNetworksLoop :
    Nat → Graph → List (Int × MsEntry) → Nat → Int → Graph × List (Int × MsEntry)
  | 0, g, ms, _, _ => (g, ms)
  | fuel + 1, g, ms, existingLen, now =>
    let r := removeSmallNetworksPass g ms existingLen now
    if r.2.2 then removeSmallNetworksLoop fuel r.1 r.2.1 existingLen now
    else (r.1, r.2.1)

/-- Visualizer.removeSmallNetworks: repeat discovery and removal until one
full pass removes nothing. -/
def removeSmallNetworks (g : Graph) (ms : List (Int × MsEntry))
    (existingLen : Nat) (now : Int) : Graph × List (Int × MsEntry) :=
  removeSmallNetworksLoop (g.nodes.length + 1) g ms existingLen now

/-- Feed protocol of the network served by the Visualizer instance. -/
inductive Protocol where
  | og
  | chrysalis
deriving DecidableEq

/-- The Visualizer state touched by the claims: the graph, the
arrival-order id list _existingIds, the pending item buffer _newItems, the
pending-removal queue _removeNodes, the milestone index _msIndexToNode and
the pruning interval counter. -/
structure VisState where
  graph : Graph := {}
  existingIds : List String := []
  newItems : List IFeedItem := []
  removeNodesQueue : List String := []
  msIndexToNode : List (Int × MsEntry) := []
  smallNetworkInterval : Nat := 0
deriving DecidableEq

/-- Visualizer.itemsUpdated: append the delivered items to the pending
buffer; on chrysalis networks also upsert a milestone entry for every
buffered item with truthy metaData.MS and run a milestone tracking pass
when anything changed. -/
def itemsUpdated (proto : Protocol) (s : VisState) (items : List IFeedItem)
    (now : Int) : VisState :=
  let s1 := { s with newItems := s.newItems ++ items }
  match proto with
  | .og => s1
  | .chrysalis =>
    let pass := s1.newItems.foldl
      (fun (acc : List (Int × MsEntry) × Bool) message =>
        if message.msTruthy then
          match message.msNum with
          | some k => (msUpsert acc.1 k { id := message.id, lastSeen := now }, true)
          | none => (acc.1, true)
        else acc) (s1.msIndexToNode, false)
    if pass.2 then
      let hm := highlightMilestones s1.graph pass.1 now
      { s1 with graph := hm.1, msIndexToNode := hm.2 }
    else { s1 with msIndexToNode := pass.1 }

/-- Visualizer.confirmedUpdated: flip the confirmed flag on each listed
node's payload (a restyle only, no structural change). -/
def confirmedUpdated (s : VisState) (ids : List String) : VisState :=
  let g1 := ids.foldl
    (fun g sn =>
      match g.getNode sn with
      | some nd =>
        g.setData sn { nd with feedItem := { nd.feedItem with confirmed := true } }
      | none => g) s.graph
  { s with graph := g1 }

/-- Visualizer.drawUpdates: when items are pending, consume a chunk of
ceil(pending / 50), fold it into the graph, extend the arrival-order id
list with the added ids, run the eviction while loop, drain the removal
queue, and every hundredth pass prune small disconnected networks. -/
def drawUpdates (s : VisState) (now : Int) : VisState :=
  if s.newItems.length > 0 then
    let consumeLength := (s.newItems.length + 49) / 50
    let items := s.newItems.take consumeLength
    let rest := s.newItems.drop consumeLength
    let pr := processItems now s.graph items
    let existingIds1 := s.existingIds ++ pr.2
    let ev := evictLoop pr.2 existingIds1 s.removeNodesQueue
    let dr := removeNodes pr.1 s.msIndexToNode ev.2
    let afterDrain : VisState :=
      { graph := dr.1, existingIds := ev.1, newItems := rest,
        removeNodesQueue := [], msIndexToNode := dr.2,
        smallNetworkInterval := s.smallNetworkInterval + 1 }
    if s.smallNetworkInterval % 100 = 0 then
      let rs := removeSmallNetworks afterDrain.graph afterDrain.msIndexToNode
        afterDrain.existingIds.length now
      { afterDrain with graph := rs.1, msIndexToNode := rs.2 }
    else afterDrain
  else s

/-- An externally driven event of the Visualizer. -/
inductive Event where
  | deliver (items : List IFeedItem) (now : Int)
  | confirm (ids : List String)
  | draw (now : Int)
deriving DecidableEq

/-- One event step. -/
def step (proto : Protocol) (s : VisState) : Event → VisState
  | .deliver items now => itemsUpdated proto s items now
  | .confirm ids => confirmedUpdated s ids
  | .draw now => drawUpdates s now

/-- Run an event trace from the freshly constructed Visualizer state. -/
def runTrace (proto : Protocol) (evs : List Event) : VisState :=
  evs.foldl (step proto) {}

end Visualizer

section EvictionLemmas

open Visualizer

theorem evictLoop_eq (added : List String) :
    ∀ (ids acc : List String),
    evictLoop added ids acc
      = (ids.drop (ids.length - MAX_ITEMS),
         acc ++ ((ids.take (ids.length - MAX_ITEMS)).filter
           (fun x => x != "" && !(added.contains x)))) := by
  intro ids
  induction ids with
  | nil =>
    intro acc
    simp [evictLoop]
  | cons x rest ih =>
    intro acc
    unfold evictLoop
    by_cases h : (x :: rest).length > MAX_ITEMS
    · rw [if_pos h, ih]
      have hk : (x :: rest).length - MAX_ITEMS = (rest.length - MAX_ITEMS) + 1 := by
        simp only [List.length_cons] at h ⊢
        omega
      rw [hk, List.drop_succ_cons, List.take_succ_cons, List.filter_cons]
      by_cases hx : (x != "" && !(added.contains x)) = true
      · rw [if_pos hx, if_pos hx]
        simp [List.append_assoc]
      · rw [if_neg hx, if_neg hx]
    · rw [if_neg h]
      have hk : (x :: rest).length - MAX_ITEMS = 0 := by
        simp only [List.length_cons] at h ⊢
        omega
      rw [hk]
      simp

theorem getNode_eq_none_iff (g : Graph) (id : String) :
    g.getNode id = none ↔ g.nodes.find? (fun p => p.1 == id) = none := by
  unfold Graph.getNode
  exact Option.map_eq_none'

/-- The graph node entry built for a fresh parentless item. -/
def freshNode (now : Int) (it : IFeedItem) : String × INodeData :=
  (it.id, { feedItem := it, added := now, graphId := none })

theorem processItems_fresh (now : Int) :
    ∀ (items : List IFeedItem) (g : Graph) (acc : List String),
    (∀ it ∈ items, it.parent1 = none ∧ it.parent2 = none) →
    (∀ it ∈ items, g.getNode it.id = none) →
    ((items.map (fun it => it.id)).Nodup) →
    items.foldl (processItem now) (g, acc)
      = (Graph.mk (g.nodes ++ items.map (freshNode now)) g.links,
         acc ++ items.map (fun it => it.id)) := by
  intro items
  induction items with
  | nil =>
    intro g acc _ _ _
    simp
  | cons it rest ih =>
    intro g acc hpar hfresh hnd
    rw [List.foldl_cons]
    have hstep : processItem now (g, acc) it
        = (g.addNode it.id { feedItem := it, added := now }, acc ++ [it.id]) := by
      unfold processItem
      rw [show (g, acc).1.getNode it.id = none from hfresh it (by simp)]
      rw [show it.parent1 = none from (hpar it (by simp)).1]
      rw [show it.parent2 = none from (hpar it (by simp)).2]
    rw [hstep]
    have haddeq : g.addNode it.id { feedItem := it, added := now }
        = Graph.mk (g.nodes ++ [freshNode now it]) g.links := by
      unfold Graph.addNode
      rw [if_neg (by
        rw [(getNode_eq_none_iff g it.id).mp (hfresh it (by simp))]
        simp)]
      rfl
    rw [haddeq]
    rw [List.map_cons, List.nodup_cons] at hnd
    have hres := ih (Graph.mk (g.nodes ++ [freshNode now it]) g.links)
      (acc ++ [it.id])
      (fun q hq => hpar q (by simp [hq]))
      (fun q hq => by
        rw [getNode_eq_none_iff]
        dsimp only
        rw [List.find?_append,
          (getNode_eq_none_iff g q.id).mp (hfresh q (by simp [hq]))]
        have hne : ¬ ((freshNode now it).1 == q.id) = true := by
          intro hqe
          refine hnd.1 (List.mem_map.mpr ⟨q, hq, ?_⟩)
          unfold freshNode at hqe
          exact (beq_iff_eq.mp hqe).symm
        rw [Option.none_or, find?_key_cons_neg (freshNode now it) [] hne]
        rfl)
      hnd.2
    rw [hres]
    rw [List.map_cons]
    simp [List.append_assoc]

end EvictionLemmas

/-- Item of the oversized batch used against the node cap: a parentless
item with a nonempty id of length i + 1. -/
def bigItem (i : Nat) : IFeedItem := { id := String.mk ('b' :: List.replicate i 'a') }

/-- A pending buffer large enough that one animation frame consumes 5001
items. -/
def bigItems : List IFeedItem := (List.range 250050).map bigItem

open Visualizer in
/-- Event trace for the C2 counterexample: a one-item batch and a draw
(consuming the pruning tick), then the oversized batch and a draw. -/
def c2Trace : List Event :=
  [Event.deliver [{ id := "t0" }] 0, Event.draw 0,
   Event.deliver bigItems 1, Event.draw 1]

/-- Node data of the first-batch node after the first two events. -/
def t0data : INodeData := { feedItem := { id := "t0" }, added := 0, graphId := some 1 }

/-- The graph after the first two events of c2Trace. -/
def s2graph : Graph := Graph.mk [("t0", t0data)] []

/-- The chunk of bigItems consumed by the second draw. -/
def chunkItems : List IFeedItem := (List.range 5001).map bigItem

theorem bigItem_id_ne_t0 (i : Nat) : ¬ ((bigItem i).id = "t0") := by
  intro h
  have hd := congrArg String.data h
  rw [show String.data "t0" = ['t', '0'] from rfl] at hd
  unfold bigItem at hd
  dsimp only at hd
  injection hd with h1 _
  exact absurd h1 (by decide)

theorem bigItem_id_inj : ∀ i j : Nat, (bigItem i).id = (bigItem j).id → i = j := by
  intro i j h
  unfold bigItem at h
  dsimp only at h
  injection h with hd
  injection hd with _ hrep
  have := congrArg List.length hrep
  simpa using this

theorem chunk_take : bigItems.take 5001 = chunkItems := by
  unfold bigItems chunkItems
  rw [← List.map_take, List.take_range]
  rw [show ((5001 : Nat) ⊓ 250050) = 5001 from by norm_num]

theorem chunk_id_mem {x : String} (hx : x ∈ chunkItems.map (fun it => it.id)) :
    ∃ i, x = (bigItem i).id := by
  rw [List.mem_map] at hx
  obtain ⟨it, hit, rfl⟩ := hx
  unfold chunkItems at hit
  rw [List.mem_map] at hit
  obtain ⟨i, _, rfl⟩ := hit
  exact ⟨i, rfl⟩

theorem added_not_contains_t0 :
    (chunkItems.map (fun it => it.id)).contains "t0" = false := by
  cases h : (chunkItems.map (fun it => it.id)).contains "t0"
  · rfl
  · exfalso
    obtain ⟨i, hi⟩ := chunk_id_mem (List.elem_iff.mp h)
    exact bigItem_id_ne_t0 i hi.symm

theorem chunkNodes_key_ne_t0 :
    ∀ p ∈ chunkItems.map (freshNode 1), ¬ (p.1 == "t0") = true := by
  intro p hp hbe
  rw [List.mem_map] at hp
  obtain ⟨it, hit, rfl⟩ := hp
  unfold chunkItems at hit
  rw [List.mem_map] at hit
  obtain ⟨i, _, rfl⟩ := hit
  exact bigItem_id_ne_t0 i (beq_iff_eq.mp hbe)

theorem chunk_processed :
    Visualizer.processItems 1 s2graph chunkItems
      = (Graph.mk (s2graph.nodes ++ chunkItems.map (freshNode 1)) s2graph.links,
         chunkItems.map (fun it => it.id)) := by
  have h := processItems_fresh 1 chunkItems s2graph []
    (by
      intro it hit
      unfold chunkItems at hit
      rw [List.mem_map] at hit
      obtain ⟨i, _, rfl⟩ := hit
      exact ⟨rfl, rfl⟩)
    (by
      intro it hit
      unfold chunkItems at hit
      rw [List.mem_map] at hit
      obtain ⟨i, _, rfl⟩ := hit
      rw [getNode_eq_none_iff]
      rw [show s2graph.nodes = [("t0", t0data)] from rfl]
      rw [find?_key_cons_neg _ _ (by
        intro hbe
        exact bigItem_id_ne_t0 i (beq_iff_eq.mp hbe).symm)]
      rfl)
    (by
      unfold chunkItems
      rw [List.map_map]
      refine List.Nodup.map ?_ (List.nodup_range 5001)
      intro i j hij
      exact bigItem_id_inj i j hij)
  unfold Visualizer.processItems
  rw [h, List.nil_append]

theorem drain_t0 (C : List (String × INodeData))
    (hC : ∀ p ∈ C, ¬ (p.1 == "t0") = true) :
    Visualizer.removeNodes (Graph.mk (("t0", t0data) :: C) []) [] ["t0"]
      = (Graph.mk C [], []) := by
  unfold Visualizer.removeNodes
  rw [if_pos (by decide)]
  have hone : Visualizer.removeOneNode (Graph.mk (("t0", t0data) :: C) []) [] "t0"
      = (Graph.mk C [], []) := by
    unfold Visualizer.removeOneNode
    rw [show (Graph.mk (("t0", t0data) :: C) []).linksOf "t0" = [] from rfl]
    rw [List.foldl_nil]
    dsimp only
    have hrm : (Graph.mk (("t0", t0data) :: C) []).removeNode "t0"
        = Graph.mk C [] := by
      unfold Graph.removeNode
      have h1 : (Graph.mk (("t0", t0data) :: C) []).nodes.filter
          (fun p => !(p.1 == "t0")) = C := by
        rw [show (Graph.mk (("t0", t0data) :: C) []).nodes
            = ("t0", t0data) :: C from rfl]
        rw [List.filter_cons_of_neg (by decide)]
        rw [List.filter_eq_self]
        intro p hp
        cases hb : p.1 == "t0"
        · rfl
        · exact absurd hb (hC p hp)
      rw [h1]
      rfl
    rw [hrm]
    rw [show (Graph.mk C []).getNode "t0" = none from by
      rw [getNode_eq_none_iff, List.find?_eq_none]
      exact hC]
  rw [hone]
  rfl

open Visualizer in
/-- The second draw of the C2 counterexample over an abstract consumed
chunk C, keeping the oversized lists symbolic. -/
theorem c2_draw (C buf : List IFeedItem)
    (hbuflen : buf.length = 250050)
    (htake : buf.take 5001 = C)
    (hproc : processItems 1 s2graph C
        = (Graph.mk (s2graph.nodes ++ C.map (freshNode 1)) s2graph.links,
           C.map (fun it => it.id)))
    (haddlen : (C.map (fun it => it.id)).length = 5001)
    (hnotc : (C.map (fun it => it.id)).contains "t0" = false)
    (hkeys : ∀ p ∈ C.map (freshNode 1), ¬ (p.1 == "t0") = true) :
    drawUpdates (VisState.mk s2graph ["t0"] buf [] [] 1) 1
      = VisState.mk (Graph.mk (C.map (freshNode 1)) [])
          ((C.map (fun it => it.id)).drop 1) (buf.drop 5001) [] [] 2 := by
  unfold drawUpdates
  dsimp only
  rw [hbuflen]
  rw [if_pos (by norm_num)]
  rw [show ((250050 + 49) / 50 : Nat) = 5001 from by norm_num]
  rw [htake, hproc]
  dsimp only
  rw [evictLoop_eq]
  rw [show ((["t0"] : List String) ++ C.map (fun it => it.id))
      = "t0" :: C.map (fun it => it.id) from rfl]
  rw [show ("t0" :: C.map (fun it => it.id)).length - MAX_ITEMS = 2 from by
    rw [List.length_cons, haddlen]
    norm_num [MAX_ITEMS]]
  rw [List.drop_succ_cons, List.take_succ_cons]
  rw [List.filter_cons_of_pos (by rw [hnotc]; rfl)]
  rw [show ((C.map (fun it => it.id)).take 1).filter
      (fun x => x != "" && !((C.map (fun it => it.id)).contains x)) = [] from by
    rw [List.filter_eq_nil_iff]
    intro x hx
    rw [(contains_eq_true_iff _ _).mpr (List.mem_of_mem_take hx)]
    simp]
  rw [show s2graph.nodes = [("t0", t0data)] from rfl]
  rw [show s2graph.links = ([] : List GraphLink) from rfl]
  rw [List.singleton_append]
  rw [show (([] : List String) ++ ["t0"]) = ["t0"] from rfl]
  rw [drain_t0 (C.map (freshNode 1)) hkeys]
  dsimp only
  rw [if_neg (by norm_num)]

set_option maxRecDepth 2000 in
open Visualizer in
/-- C2 counterexample: after the trace c2Trace - a one-item batch, a draw,
an oversized batch and a draw - the eviction sweep and the drain have
completed (the pending-removal queue is empty) yet the graph holds 5001
nodes, exceeding MAX_ITEMS: ids of the current pass's added set were
shifted out of the arrival-order list without being queued, leaking their
nodes past the cap. -/
theorem C2_counterexample :
    (runTrace Protocol.og c2Trace).removeNodesQueue = []
  ∧ MAX_ITEMS < (runTrace Protocol.og c2Trace).graph.nodes.length := by
  have hsplit : runTrace Protocol.og c2Trace
      = List.foldl (step Protocol.og)
          (List.foldl (step Protocol.og) {}
            [Event.deliver [{ id := "t0" }] 0, Event.draw 0])
          [Event.deliver bigItems 1, Event.draw 1] := by
    unfold runTrace c2Trace
    rw [show ([Event.deliver [{ id := "t0" }] 0, Event.draw 0,
        Event.deliver bigItems 1, Event.draw 1] : List Event)
        = [Event.deliver [{ id := "t0" }] 0, Event.draw 0]
          ++ [Event.deliver bigItems 1, Event.draw 1] from rfl]
    rw [List.foldl_append]
  have h2 : List.foldl (step Protocol.og) {}
      [Event.deliver [{ id := "t0" }] 0, Event.draw 0]
      = VisState.mk s2graph ["t0"] [] [] [] 1 := by
    decide
  have hbuflen : bigItems.length = 250050 := by
    unfold bigItems
    rw [List.length_map, List.length_range]
  have haddlen : (chunkItems.map (fun it => it.id)).length = 5001 := by
    unfold chunkItems
    rw [List.length_map, List.length_map, List.length_range]
  have h4 := c2_draw chunkItems bigItems hbuflen chunk_take chunk_processed
    haddlen added_not_contains_t0 chunkNodes_key_ne_t0
  have hstep_deliver : ∀ (s : VisState) (items : List IFeedItem) (now : Int),
      step Protocol.og s (Event.deliver items now)
        = { s with newItems := s.newItems ++ items } := fun s items now => rfl
  have hstep_draw : ∀ (s : VisState) (now : Int),
      step Protocol.og s (Event.draw now) = drawUpdates s now := fun s now => rfl
  rw [hsplit, h2, List.foldl_cons, List.foldl_cons, List.foldl_nil]
  rw [hstep_deliver]
  dsimp only
  rw [List.nil_append, hstep_draw, h4]
  constructor
  · rfl
  · dsimp only
    rw [show (chunkItems.map (freshNode 1)).length = 5001 from by
      unfold chunkItems
      rw [List.length_map, List.length_map, List.length_range]]
    norm_num [MAX_ITEMS]

section IdsLemmas

open Visualizer

theorem ids_setData (g : Graph) (id : String) (d : INodeData) :
    (g.setData id d).ids = g.ids := by
  unfold Graph.setData Graph.ids
  dsimp only
  rw [List.map_map]
  refine List.map_congr_left (fun p _ => ?_)
  by_cases h : (p.1 == id) = true
  · simp only [Function.comp, if_pos h]
    exact (beq_iff_eq.mp h).symm
  · simp only [Function.comp, if_neg h]

theorem ids_setMsMeta (g : Graph) (id : String) (nd : INodeData) (k : Int) :
    (setMsMeta g id nd k).ids = g.ids := by
  unfold setMsMeta
  exact ids_setData _ _ _

theorem ids_hmStep (now : Int) (acc : Graph × List (Int × MsEntry) × List Int)
    (p : Int × MsEntry) : (hmStep now acc p).1.ids = acc.1.ids := by
  unfold hmStep
  cases hn : acc.1.getNode p.2.id with
  | some nd =>
    dsimp only
    exact ids_setMsMeta _ _ _ _
  | none =>
    dsimp only
    by_cases hc : now - p.2.lastSeen > 300000
    · rw [if_pos hc]
    · rw [if_neg hc]

theorem ids_hm_fold (now : Int) :
    ∀ (entries : List (Int × MsEntry)) (acc : Graph × List (Int × MsEntry) × List Int),
    (entries.foldl (hmStep now) acc).1.ids = acc.1.ids := by
  intro entries
  induction entries with
  | nil => intro acc; rfl
  | cons p rest ih =>
    intro acc
    rw [List.foldl_cons, ih, ids_hmStep]

theorem ids_highlightMilestones (g : Graph) (ms : List (Int × MsEntry)) (now : Int) :
    (highlightMilestones g ms now).1.ids = g.ids := by
  unfold highlightMilestones
  dsimp only
  exact ids_hm_fold now ms (g, ms, [])

theorem ids_itemsUpdated (proto : Protocol) (s : VisState)
    (items : List IFeedItem) (now : Int) :
    (itemsUpdated proto s items now).graph.ids = s.graph.ids
    ∧ (itemsUpdated proto s items now).existingIds = s.existingIds
    ∧ (itemsUpdated proto s items now).removeNodesQueue = s.removeNodesQueue
    ∧ (itemsUpdated proto s items now).newItems = s.newItems ++ items := by
  unfold itemsUpdated
  cases proto with
  | og => exact ⟨rfl, rfl, rfl, rfl⟩
  | chrysalis =>
    dsimp only
    by_cases hc : ((s.newItems ++ items).foldl
        (fun (acc : List (Int × MsEntry) × Bool) message =>
          if message.msTruthy then
            match message.msNum with
            | some k => (msUpsert acc.1 k { id := message.id, lastSeen := now }, true)
            | none => (acc.1, true)
          else acc) (s.msIndexToNode, false)).2 = true
    · rw [if_pos hc]
      exact ⟨ids_highlightMilestones _ _ _, rfl, rfl, rfl⟩
    · rw [if_neg hc]
      exact ⟨rfl, rfl, rfl, rfl⟩

theorem ids_confirmedUpdated (s : VisState) (ids : List String) :
    (confirmedUpdated s ids).graph.ids = s.graph.ids
    ∧ (confirmedUpdated s ids).existingIds = s.existingIds
    ∧ (confirmedUpdated s ids).removeNodesQueue = s.removeNodesQueue
    ∧ (confirmedUpdated s ids).newItems = s.newItems := by
  unfold confirmedUpdated
  refine ⟨?_, rfl, rfl, rfl⟩
  dsimp only
  induction ids generalizing s with
  | nil => rfl
  | cons c rest ih =>
    rw [List.foldl_cons]
    have hgen : ∀ g : Graph,
        (match g.getNode c with
          | some nd =>
            g.setData c { nd with feedItem := { nd.feedItem with confirmed := true } }
          | none => g).ids = g.ids := by
      intro g
      cases hn : g.getNode c with
      | some nd => exact ids_setData _ _ _
      | none => rfl
    have := ih { s with graph :=
      (match s.graph.getNode c with
        | some nd =>
          s.graph.setData c { nd with feedItem := { nd.feedItem with confirmed := true } }
        | none => s.graph) }
    dsimp only at this
    rw [this, hgen]

end IdsLemmas

section RemovalLemmas

open Visualizer

theorem ids_removeLink (g : Graph) (l : GraphLink) :
    (g.removeLink l).ids = g.ids := rfl

theorem ids_removeNode (g : Graph) (id : String) :
    (g.removeNode id).ids = g.ids.filter (fun x => !(x == id)) := by
  unfold Graph.removeNode Graph.ids
  dsimp only
  induction g.nodes with
  | nil => rfl
  | cons p rest ih =>
    by_cases h : (p.1 == id) = true
    · rw [List.filter_cons_of_neg (by simp [h]), List.map_cons,
        List.filter_cons_of_neg (by simp [beq_iff_eq.mp h]), ih]
    · rw [List.filter_cons_of_pos (by simp [h]), List.map_cons, List.map_cons,
        List.filter_cons_of_pos (by simp [h]), ih]

theorem ids_removeNode_sublist (g : Graph) (id : String) :
    (g.removeNode id).ids.Sublist g.ids := by
  rw [ids_removeNode]
  exact List.filter_sublist _

theorem not_mem_ids_removeNode (g : Graph) (id : String) :
    id ∉ (g.removeNode id).ids := by
  rw [ids_removeNode]
  intro h
  have := List.of_mem_filter h
  simp at this

theorem ids_removalWalkStep_sublist (t : String)
    (acc : Graph × List (Int × MsEntry)) (l : GraphLink) :
    ((removalWalkStep t acc l).1.ids).Sublist acc.1.ids := by
  unfold removalWalkStep
  dsimp only
  by_cases hz : (((acc.1.removeLink l).linksOf (l.otherEnd t)).length = 0)
  · rw [if_pos hz]
    cases hn : (acc.1.removeLink l).getNode (l.otherEnd t) with
    | some nd =>
      dsimp only
      exact ids_removeNode_sublist (acc.1.removeLink l) (l.otherEnd t)
    | none =>
      dsimp only
      exact List.Sublist.refl _
  · rw [if_neg hz]
    exact List.Sublist.refl _

theorem ids_removalWalk_sublist (t : String) :
    ∀ (links : List GraphLink) (acc : Graph × List (Int × MsEntry)),
    ((links.foldl (removalWalkStep t) acc).1.ids).Sublist acc.1.ids := by
  intro links
  induction links with
  | nil => intro acc; exact List.Sublist.refl _
  | cons l rest ih =>
    intro acc
    rw [List.foldl_cons]
    exact List.Sublist.trans (ih _) (ids_removalWalkStep_sublist t acc l)

theorem removeOneNode_graph_eq (g : Graph) (ms : List (Int × MsEntry))
    (t : String) :
    ∃ ms1, removeOneNode g ms t
      = (((g.linksOf t).foldl (removalWalkStep t) (g, ms)).1.removeNode t, ms1) := by
  unfold removeOneNode
  dsimp only
  cases hn : ((((g.linksOf t).foldl (removalWalkStep t) (g, ms)).1.removeNode t).getNode t) with
  | some nd => exact ⟨_, rfl⟩
  | none => exact ⟨_, rfl⟩

theorem ids_removeOneNode_sublist (g : Graph) (ms : List (Int × MsEntry))
    (t : String) : (removeOneNode g ms t).1.ids.Sublist g.ids := by
  obtain ⟨ms1, heq⟩ := removeOneNode_graph_eq g ms t
  rw [heq]
  exact List.Sublist.trans
    (ids_removeNode_sublist _ t)
    (ids_removalWalk_sublist t (g.linksOf t) (g, ms))

theorem not_mem_ids_removeOneNode (g : Graph) (ms : List (Int × MsEntry))
    (t : String) : t ∉ (removeOneNode g ms t).1.ids := by
  obtain ⟨ms1, heq⟩ := removeOneNode_graph_eq g ms t
  rw [heq]
  exact not_mem_ids_removeNode _ t

theorem ids_removeNodes_sublist :
    ∀ (queue : List String) (g : Graph) (ms : List (Int × MsEntry)),
    ((removeNodes g ms queue).1.ids).Sublist g.ids := by
  intro queue
  induction queue with
  | nil => intro g ms; exact List.Sublist.refl _
  | cons t rest ih =>
    intro g ms
    unfold removeNodes
    by_cases ht : (t != "") = true
    · rw [if_pos ht]
      exact List.Sublist.trans (ih _ _) (ids_removeOneNode_sublist g ms t)
    · rw [if_neg ht]
      exact ih g ms

theorem removeNodes_not_mem :
    ∀ (queue : List String) (g : Graph) (ms : List (Int × MsEntry)) (t : String),
    t ∈ queue → (t != "") = true → t ∉ ((removeNodes g ms queue).1.ids) := by
  intro queue
  induction queue with
  | nil => intro g ms t ht _; exact absurd ht (by simp)
  | cons u rest ih =>
    intro g ms t ht hne
    unfold removeNodes
    rcases List.mem_cons.mp ht with rfl | hrest
    · rw [if_pos hne]
      intro hmem
      have hsub := ids_removeNodes_sublist rest (removeOneNode g ms t).1
        (removeOneNode g ms t).2
      exact not_mem_ids_removeOneNode g ms t (hsub.subset hmem)
    · by_cases hu : (u != "") = true
      · rw [if_pos hu]
        exact ih _ _ t hrest hne
      · rw [if_neg hu]
        exact ih g ms t hrest hne

end RemovalLemmas

section PruneLemmas

open Visualizer

theorem ids_clearGraphIds (g : Graph) : (clearGraphIds g).ids = g.ids := by
  unfold clearGraphIds Graph.ids
  dsimp only
  rw [List.map_map]
  rfl

theorem ids_calculateSubGraphLoop (gid : Nat) :
    ∀ (fuel : Nat) (g : Graph) (queue visited : List String) (mrc : Int),
    (calculateSubGraphLoop gid fuel g queue visited mrc).1.ids = g.ids := by
  intro fuel
  induction fuel with
  | zero => intro g queue visited mrc; rfl
  | succ n ih =>
    intro g queue visited mrc
    unfold calculateSubGraphLoop
    cases queue with
    | nil => rfl
    | cons nodeId rest =>
      dsimp only
      by_cases hne : (nodeId != "") = true
      · rw [if_pos hne]
        cases hn : g.getNode nodeId with
        | some nd =>
          dsimp only
          by_cases hg : nd.graphId.isNone
          · rw [if_pos hg]
            rw [ih]
            exact ids_setData _ _ _
          · rw [if_neg hg]
            exact ih _ _ _ _
        | none =>
          dsimp only
          exact ih _ _ _ _
      · rw [if_neg hne]
        exact ih _ _ _ _

theorem ids_calculateSubGraph (g : Graph) (startId : String) (gid : Nat) :
    (calculateSubGraph g startId gid).1.ids = g.ids :=
  ids_calculateSubGraphLoop gid _ g _ _ _

theorem ids_enumerateSubGraphs (g : Graph) :
    (enumerateSubGraphs g).1.ids = g.ids := by
  unfold enumerateSubGraphs
  have hfold : ∀ (l : List String) (acc : Graph × List (List String × Int)),
      ((l.foldl (fun (acc : Graph × List (List String × Int)) id =>
        match acc.1.getNode id with
        | some nd =>
          if nd.graphId.isNone then
            let r := calculateSubGraph acc.1 id (acc.2.length + 1)
            (r.1, acc.2 ++ [(r.2.1, r.2.2)])
          else acc
        | none => acc) acc).1.ids) = acc.1.ids := by
    intro l
    induction l with
    | nil => intro acc; rfl
    | cons id rest ih =>
      intro acc
      rw [List.foldl_cons]
      rw [ih]
      cases hn : acc.1.getNode id with
      | some nd =>
        dsimp only
        by_cases hg : nd.graphId.isNone
        · rw [if_pos hg]
          exact ids_calculateSubGraph _ _ _
        · rw [if_neg hg]
      | none => rfl
  rw [hfold]
  exact ids_clearGraphIds g

theorem ids_removeSmallNetworksPass_sublist (g : Graph)
    (ms : List (Int × MsEntry)) (existingLen : Nat) (now : Int) :
    ((removeSmallNetworksPass g ms existingLen now).1.ids).Sublist g.ids := by
  unfold removeSmallNetworksPass
  dsimp only
  by_cases hr : ((enumerateSubGraphs g).2.foldl
      (fun (acc : List String × Bool) sub =>
        if 100 * sub.1.length < 3 * existingLen && decide (now - sub.2 > 60000) then
          (acc.1 ++ sub.1, true)
        else acc) ([], false)).2 = true
  · rw [if_pos hr]
    dsimp only
    refine List.Sublist.trans (ids_removeNodes_sublist _ _ _) ?_
    rw [ids_enumerateSubGraphs]
  · rw [if_neg hr]
    dsimp only
    rw [ids_enumerateSubGraphs]

theorem ids_removeSmallNetworksLoop_sublist :
    ∀ (fuel : Nat) (g : Graph) (ms : List (Int × MsEntry))
      (existingLen : Nat) (now : Int),
    ((removeSmallNetworksLoop fuel g ms existingLen now).1.ids).Sublist g.ids := by
  intro fuel
  induction fuel with
  | zero => intro g ms el now; exact List.Sublist.refl _
  | succ n ih =>
    intro g ms el now
    unfold removeSmallNetworksLoop
    dsimp only
    by_cases hr : (removeSmallNetworksPass g ms el now).2.2 = true
    · rw [if_pos hr]
      exact List.Sublist.trans (ih _ _ _ _)
        (ids_removeSmallNetworksPass_sublist g ms el now)
    · rw [if_neg hr]
      exact ids_removeSmallNetworksPass_sublist g ms el now

theorem ids_removeSmallNetworks_sublist (g : Graph) (ms : List (Int × MsEntry))
    (existingLen : Nat) (now : Int) :
    ((removeSmallNetworks g ms existingLen now).1.ids).Sublist g.ids :=
  ids_removeSmallNetworksLoop_sublist _ g ms existingLen now

end PruneLemmas

section ProcessItemIds

open Visualizer

theorem not_mem_ids_of_getNode_none (g : Graph) (id : String)
    (h : g.getNode id = none) : id ∉ g.ids := by
  rw [getNode_eq_none_iff] at h
  rw [List.find?_eq_none] at h
  intro hmem
  unfold Graph.ids at hmem
  rw [List.mem_map] at hmem
  obtain ⟨p, hp, hpe⟩ := hmem
  exact h p hp (by rw [hpe]; simp)

theorem ids_addNode_absent (g : Graph) (id : String) (d : INodeData)
    (h : g.getNode id = none) : (g.addNode id d).ids = g.ids ++ [id] := by
  unfold Graph.addNode
  rw [getNode_eq_none_iff] at h
  rw [if_neg (by rw [h]; simp)]
  unfold Graph.ids
  rw [List.map_append]
  rfl

theorem nodup_append_singleton {l : List String} {a : String}
    (hnd : l.Nodup) (ha : a ∉ l) : (l ++ [a]).Nodup := by
  rw [List.nodup_append]
  exact ⟨hnd, List.nodup_singleton a, by
    intro x hx hxa
    rw [List.mem_singleton] at hxa
    subst hxa
    exact ha hx⟩

theorem linkParent_ids (now : Int) (childId p : String)
    (st : Graph × List String) (hp : ¬ p = "") (hnd : st.1.ids.Nodup) :
    ∃ new, (linkParent now childId p st).1.ids = st.1.ids ++ new
      ∧ (linkParent now childId p st).2 = st.2 ++ new
      ∧ (st.1.ids ++ new).Nodup
      ∧ (∀ x ∈ new, ¬ x = "") := by
  unfold linkParent
  by_cases hn : (st.1.getNode p).isNone
  · simp only [hn, if_true]
    have hnone : st.1.getNode p = none := Option.isNone_iff_eq_none.mp hn
    refine ⟨[p], ?_, rfl, ?_, ?_⟩
    · exact ids_addNode_absent st.1 p _ hnone
    · exact nodup_append_singleton hnd (not_mem_ids_of_getNode_none st.1 p hnone)
    · intro x hx
      rw [List.mem_singleton] at hx
      subst hx
      exact hp
  · simp only [hn, if_false]
    exact ⟨[], by rw [List.append_nil]; rfl, by simp, by simpa using hnd, by simp⟩

theorem processItem_ids (now : Int) (st : Graph × List String) (item : IFeedItem)
    (hid : ¬ item.id = "") (hnd : st.1.ids.Nodup) :
    ∃ new, (processItem now st item).1.ids = st.1.ids ++ new
      ∧ (processItem now st item).2 = st.2 ++ new
      ∧ (st.1.ids ++ new).Nodup
      ∧ (∀ x ∈ new, ¬ x = "") := by
  unfold processItem
  cases hg : st.1.getNode item.id with
  | some d => exact ⟨[], by simp, by simp, by simpa using hnd, by simp⟩
  | none =>
    dsimp only
    have h1ids : (st.1.addNode item.id { feedItem := item, added := now }).ids
        = st.1.ids ++ [item.id] := ids_addNode_absent st.1 item.id _ hg
    have h1nd : (st.1.ids ++ [item.id]).Nodup :=
      nodup_append_singleton hnd (not_mem_ids_of_getNode_none st.1 item.id hg)
    have hmid : ∃ new1,
        (match item.parent1 with
          | some p1 => if p1 != "" then linkParent now item.id p1
              (st.1.addNode item.id { feedItem := item, added := now },
                st.2 ++ [item.id])
            else (st.1.addNode item.id { feedItem := item, added := now },
              st.2 ++ [item.id])
          | none => (st.1.addNode item.id { feedItem := item, added := now },
              st.2 ++ [item.id])).1.ids = st.1.ids ++ ([item.id] ++ new1)
        ∧ (match item.parent1 with
          | some p1 => if p1 != "" then linkParent now item.id p1
              (st.1.addNode item.id { feedItem := item, added := now },
                st.2 ++ [item.id])
            else (st.1.addNode item.id { feedItem := item, added := now },
              st.2 ++ [item.id])
          | none => (st.1.addNode item.id { feedItem := item, added := now },
              st.2 ++ [item.id])).2 = st.2 ++ ([item.id] ++ new1)
        ∧ (st.1.ids ++ ([item.id] ++ new1)).Nodup
        ∧ (∀ x ∈ [item.id] ++ new1, ¬ x = "") := by
      cases hp1 : item.parent1 with
      | none =>
        refine ⟨[], ?_, ?_, ?_, ?_⟩
        · rw [h1ids]
          simp
        · simp
        · simpa using h1nd
        · intro x hx
          simp only [List.append_nil, List.mem_singleton] at hx
          subst hx
          exact hid
      | some p1 =>
        dsimp only
        by_cases hc : (p1 != "") = true
        · rw [if_pos hc]
          obtain ⟨new1, ha, hb, hc2, hd⟩ := linkParent_ids now item.id p1
            (st.1.addNode item.id { feedItem := item, added := now },
              st.2 ++ [item.id])
            (by simpa using hc) (by rw [show (st.1.addNode item.id
              { feedItem := item, added := now }, st.2 ++ [item.id]).1.ids
              = st.1.ids ++ [item.id] from h1ids]; exact h1nd)
          refine ⟨new1, ?_, ?_, ?_, ?_⟩
          · rw [ha, show (st.1.addNode item.id
              { feedItem := item, added := now }, st.2 ++ [item.id]).1.ids
              = st.1.ids ++ [item.id] from h1ids]
            rw [List.append_assoc]
          · rw [hb]
            rw [List.append_assoc]
          · rw [show (st.1.addNode item.id
              { feedItem := item, added := now }, st.2 ++ [item.id]).1.ids
              = st.1.ids ++ [item.id] from h1ids] at hc2
            rw [List.append_assoc] at hc2
            exact hc2
          · intro x hx
            rcases List.mem_append.mp hx with h | h
            · rw [List.mem_singleton] at h
              subst h
              exact hid
            · exact hd x h
        · rw [if_neg hc]
          refine ⟨[], ?_, ?_, ?_, ?_⟩
          · rw [h1ids]
            simp
          · simp
          · simpa using h1nd
          · intro x hx
            simp only [List.append_nil, List.mem_singleton] at hx
            subst hx
            exact hid
    obtain ⟨new1, hmid1, hmid2, hmid3, hmid4⟩ := hmid
    cases hp2 : item.parent2 with
    | none =>
      exact ⟨[item.id] ++ new1, hmid1, hmid2, hmid3, hmid4⟩
    | some p2 =>
      dsimp only
      by_cases hc : (p2 != "" && item.parent1 != some p2) = true
      · rw [if_pos hc]
        obtain ⟨new2, ha, hb, hc2, hd⟩ := linkParent_ids now item.id p2 _
          (by
            rw [Bool.and_eq_true] at hc
            simpa using hc.1)
          (by rw [hmid1]; exact hmid3)
        refine ⟨([item.id] ++ new1) ++ new2, ?_, ?_, ?_, ?_⟩
        · rw [ha, hmid1, List.append_assoc]
        · rw [hb, hmid2, List.append_assoc]
        · rw [hmid1] at hc2
          rw [List.append_assoc] at hc2
          exact hc2
        · intro x hx
          rcases List.mem_append.mp hx with h | h
          · exact hmid4 x h
          · exact hd x h
      · rw [if_neg hc]
        exact ⟨[item.id] ++ new1, hmid1, hmid2, hmid3, hmid4⟩

theorem processItems_ids (now : Int) :
    ∀ (items : List IFeedItem) (g : Graph) (acc : List String),
    (∀ it ∈ items, ¬ it.id = "") → g.ids.Nodup →
    ∃ new, (items.foldl (processItem now) (g, acc)).1.ids = g.ids ++ new
      ∧ (items.foldl (processItem now) (g, acc)).2 = acc ++ new
      ∧ (g.ids ++ new).Nodup
      ∧ (∀ x ∈ new, ¬ x = "") := by
  intro items
  induction items with
  | nil =>
    intro g acc _ hnd
    exact ⟨[], by simp, by simp, by simpa using hnd, by simp⟩
  | cons it rest ih =>
    intro g acc hids hnd
    rw [List.foldl_cons]
    obtain ⟨n1, h1a, h1b, h1c, h1d⟩ :=
      processItem_ids now (g, acc) it (hids it (by simp)) hnd
    obtain ⟨n2, h2a, h2b, h2c, h2d⟩ := ih (processItem now (g, acc) it).1
      (processItem now (g, acc) it).2
      (fun q hq => hids q (by simp [hq]))
      (by rw [h1a]; exact h1c)
    refine ⟨n1 ++ n2, ?_, ?_, ?_, ?_⟩
    · rw [show (List.foldl (processItem now)
        ((processItem now (g, acc) it).1, (processItem now (g, acc) it).2) rest)
        = List.foldl (processItem now) (processItem now (g, acc) it) rest from rfl]
        at h2a
      rw [h2a, h1a, List.append_assoc]
    · rw [show (List.foldl (processItem now)
        ((processItem now (g, acc) it).1, (processItem now (g, acc) it).2) rest)
        = List.foldl (processItem now) (processItem now (g, acc) it) rest from rfl]
        at h2b
      rw [h2b, h1b, List.append_assoc]
    · rw [h1a] at h2c
      rw [List.append_assoc] at h2c
      exact h2c
    · intro x hx
      rcases List.mem_append.mp hx with h | h
      · exact h1d x h
      · exact h2d x h

end ProcessItemIds

section C2Invariant

open Visualizer

/-- The ids of nodes freshly added by one drawUpdates pass from state s
(the added set of that pass). -/
def drawBatch (s : VisState) (now : Int) : List String :=
  (processItems now s.graph (s.newItems.take ((s.newItems.length + 49) / 50))).2

/-- The Visualizer state invariant maintained by the event loop: every
graph node id is tracked in the arrival-order sequence, node ids are
distinct, the arrival-order sequence respects the cap, the removal queue
is drained, and no tracked or pending id is empty. -/
def VisInv (s : VisState) : Prop :=
  (∀ x ∈ s.graph.ids, x ∈ s.existingIds)
  ∧ s.graph.ids.Nodup
  ∧ s.existingIds.length ≤ MAX_ITEMS
  ∧ s.removeNodesQueue = []
  ∧ (∀ x ∈ s.existingIds, ¬ x = "")
  ∧ (∀ it ∈ s.newItems, ¬ it.id = "")

theorem nodup_subset_length {l₁ l₂ : List String} (h : l₁.Nodup)
    (hs : l₁ ⊆ l₂) : l₁.length ≤ l₂.length := by
  have h1 : l₁.toFinset.card = l₁.length := List.toFinset_card_of_nodup h
  have h2 : l₁.toFinset ⊆ l₂.toFinset := by
    intro x hx
    rw [List.mem_toFinset] at hx ⊢
    exact hs hx
  have h3 : l₂.toFinset.card ≤ l₂.length := l₂.toFinset_card_le
  have h4 : l₁.toFinset.card ≤ l₂.toFinset.card := Finset.card_le_card h2
  omega

theorem VisInv_nodes_le (s : VisState) (h : VisInv s) :
    s.graph.nodes.length ≤ MAX_ITEMS := by
  obtain ⟨h1, h2, h3, _, _, _⟩ := h
  have hlen : s.graph.ids.length = s.graph.nodes.length := by
    unfold Graph.ids
    rw [List.length_map]
  have hle : s.graph.ids.length ≤ s.existingIds.length :=
    nodup_subset_length h2 (fun x hx => h1 x hx)
  omega

theorem VisInv_init : VisInv ({} : VisState) := by
  refine ⟨?_, ?_, ?_, rfl, ?_, ?_⟩
  · intro x hx
    exact absurd hx (by simp [Graph.ids])
  · exact List.nodup_nil
  · exact Nat.zero_le _
  · intro x hx
    exact absurd hx (by simp)
  · intro it hit
    exact absurd hit (by simp)

theorem itemsUpdated_inv (proto : Protocol) (s : VisState)
    (items : List IFeedItem) (now : Int) (h : VisInv s)
    (hids : ∀ it ∈ items, ¬ it.id = "") :
    VisInv (itemsUpdated proto s items now) := by
  obtain ⟨h1, h2, h3, h4, h5, h6⟩ := h
  obtain ⟨ha, hb, hc, hd⟩ := ids_itemsUpdated proto s items now
  refine ⟨?_, ?_, ?_, ?_, ?_, ?_⟩
  · rw [ha, hb]
    exact h1
  · rw [ha]
    exact h2
  · rw [hb]
    exact h3
  · rw [hc]
    exact h4
  · rw [hb]
    exact h5
  · rw [hd]
    intro it hit
    rcases List.mem_append.mp hit with hl | hr
    · exact h6 it hl
    · exact hids it hr

theorem confirmedUpdated_inv (s : VisState) (ids : List String)
    (h : VisInv s) : VisInv (confirmedUpdated s ids) := by
  obtain ⟨h1, h2, h3, h4, h5, h6⟩ := h
  obtain ⟨ha, hb, hc, hd⟩ := ids_confirmedUpdated s ids
  refine ⟨?_, ?_, ?_, ?_, ?_, ?_⟩
  · rw [ha, hb]
    exact h1
  · rw [ha]
    exact h2
  · rw [hb]
    exact h3
  · rw [hc]
    exact h4
  · rw [hb]
    exact h5
  · rw [hd]
    exact h6

theorem drawUpdates_inv (s : VisState) (now : Int) (h : VisInv s)
    (hadd : (drawBatch s now).length ≤ MAX_ITEMS) :
    VisInv (drawUpdates s now) := by
  obtain ⟨h1, h2, h3, h4, h5, h6⟩ := h
  unfold drawUpdates
  by_cases hlen : s.newItems.length > 0
  case neg =>
    rw [if_neg hlen]
    exact ⟨h1, h2, h3, h4, h5, h6⟩
  rw [if_pos hlen]
  dsimp only
  rw [h4]
  have hitems : ∀ it ∈ s.newItems.take ((s.newItems.length + 49) / 50),
      ¬ it.id = "" := fun it hit => h6 it (List.mem_of_mem_take hit)
  obtain ⟨new, hga, hacc, hndnew, hnenew⟩ :=
    processItems_ids now (s.newItems.take ((s.newItems.length + 49) / 50))
      s.graph [] hitems h2
  set P := processItems now s.graph
    (s.newItems.take ((s.newItems.length + 49) / 50)) with hP
  have hP2 : P.2 = new := by
    rw [hP]
    unfold processItems
    rw [hacc, List.nil_append]
  have hPids : P.1.ids = s.graph.ids ++ new := by
    rw [hP]
    unfold processItems
    exact hga
  have hadd' : new.length ≤ MAX_ITEMS := by
    have hdb : drawBatch s now = P.2 := by rw [hP]; rfl
    rw [hdb, hP2] at hadd
    exact hadd
  set EV := evictLoop P.2 (s.existingIds ++ P.2) [] with hEV
  set DR := removeNodes P.1 s.msIndexToNode EV.2 with hDR
  have hk : (s.existingIds ++ new).length - MAX_ITEMS ≤ s.existingIds.length := by
    rw [List.length_append]
    omega
  have hEVeq : EV = ((s.existingIds ++ new).drop
        ((s.existingIds ++ new).length - MAX_ITEMS),
      ((s.existingIds ++ new).take
        ((s.existingIds ++ new).length - MAX_ITEMS)).filter
        (fun x => x != "" && !(new.contains x))) := by
    rw [hEV, hP2, evictLoop_eq, List.nil_append]
  have hEV1 : EV.1 = s.existingIds.drop
      ((s.existingIds ++ new).length - MAX_ITEMS) ++ new := by
    rw [hEVeq]
    dsimp only
    rw [List.drop_append_of_le_length hk]
  have hEV2 : EV.2 = (s.existingIds.take
      ((s.existingIds ++ new).length - MAX_ITEMS)).filter
      (fun x => x != "" && !(new.contains x)) := by
    rw [hEVeq]
    dsimp only
    rw [List.take_append_of_le_length hk]
  have hsubDR : DR.1.ids.Sublist (s.graph.ids ++ new) := by
    rw [hDR]
    have hs := ids_removeNodes_sublist EV.2 P.1 s.msIndexToNode
    rw [hPids] at hs
    exact hs
  have hq : ∀ t ∈ EV.2, t ∉ DR.1.ids := by
    intro t ht
    have hne : (t != "") = true := by
      rw [hEV2] at ht
      have hpt := List.of_mem_filter ht
      rw [Bool.and_eq_true] at hpt
      exact hpt.1
    rw [hDR]
    exact removeNodes_not_mem EV.2 P.1 s.msIndexToNode t ht hne
  have hin : ∀ x ∈ DR.1.ids, x ∈ EV.1 := by
    intro x hx
    have hx0 : x ∈ s.graph.ids ++ new := hsubDR.subset hx
    rw [hEV1]
    rcases List.mem_append.mp hx0 with hxg | hxn
    · have hxe : x ∈ s.existingIds := h1 x hxg
      have hxsplit : x ∈ s.existingIds.take
            ((s.existingIds ++ new).length - MAX_ITEMS)
          ++ s.existingIds.drop ((s.existingIds ++ new).length - MAX_ITEMS) := by
        rw [List.take_append_drop]
        exact hxe
      rcases List.mem_append.mp hxsplit with hxt | hxd
      · exfalso
        have hxne : ¬ x = "" := h5 x hxe
        have hxnew : x ∉ new := by
          intro hmem
          rw [List.nodup_append] at hndnew
          exact hndnew.2.2 hxg hmem
        have hfilt : x ∈ EV.2 := by
          rw [hEV2, List.mem_filter]
          refine ⟨hxt, ?_⟩
          rw [Bool.and_eq_true]
          constructor
          · simpa using hxne
          · rw [Bool.not_eq_true', Bool.eq_false_iff]
            intro hc
            exact hxnew ((contains_eq_true_iff new x).mp hc)
        exact hq x hfilt hx
      · exact List.mem_append.mpr (Or.inl hxd)
    · exact List.mem_append.mpr (Or.inr hxn)
  have hndDR : DR.1.ids.Nodup := hsubDR.nodup hndnew
  have hlenEV : EV.1.length ≤ MAX_ITEMS := by
    rw [hEV1, List.length_append, List.length_drop, List.length_append]
    omega
  have hneEV : ∀ x ∈ EV.1, ¬ x = "" := by
    rw [hEV1]
    intro x hx
    rcases List.mem_append.mp hx with hd | hn
    · exact h5 x (List.mem_of_mem_drop hd)
    · exact hnenew x hn
  have hrest : ∀ it ∈ s.newItems.drop ((s.newItems.length + 49) / 50),
      ¬ it.id = "" := fun it hit => h6 it (List.mem_of_mem_drop hit)
  split
  · have hsubRS : ((removeSmallNetworks DR.1 DR.2 EV.1.length now).1.ids).Sublist
        DR.1.ids := ids_removeSmallNetworks_sublist DR.1 DR.2 EV.1.length now
    exact ⟨fun x hx => hin x (hsubRS.subset hx), hsubRS.nodup hndDR, hlenEV,
      rfl, hneEV, hrest⟩
  · exact ⟨hin, hndDR, hlenEV, rfl, hneEV, hrest⟩

theorem runTrace_inv_aux (proto : Protocol) :
    ∀ (evs : List Event) (s : VisState),
    VisInv s →
    (∀ items now, Event.deliver items now ∈ evs → ∀ it ∈ items, ¬ it.id = "") →
    (∀ pre now rest, evs = pre ++ Event.draw now :: rest →
      (drawBatch (List.foldl (step proto) s pre) now).length ≤ MAX_ITEMS) →
    VisInv (List.foldl (step proto) s evs) := by
  intro evs
  induction evs with
  | nil =>
    intro s hs _ _
    simpa using hs
  | cons ev rest ih =>
    intro s hs hdel hcap
    rw [List.foldl_cons]
    apply ih (step proto s ev)
    · cases ev with
      | deliver items now =>
        exact itemsUpdated_inv proto s items now hs (hdel items now (by simp))
      | confirm ids => exact confirmedUpdated_inv s ids hs
      | draw now =>
        apply drawUpdates_inv s now hs
        have hc := hcap [] now rest (by simp)
        simpa using hc
    · intro items now hmem
      exact hdel items now (by simp [hmem])
    · intro pre now rest2 heq
      have hc := hcap (ev :: pre) now rest2 (by rw [heq]; simp)
      rw [List.foldl_cons] at hc
      exact hc

end C2Invariant

open Visualizer in
/-- C2 amended: the 5000-node cap is NOT unconditional (see
C2_counterexample: a single pass that adds more than MAX_ITEMS fresh nodes
overruns the cap, because ids of the current added set shifted out of the
arrival-order sequence are protected from the removal queue). Under the
additional hypothesis that every draw pass adds at most MAX_ITEMS fresh
nodes, the cap does hold after every trace of deliver/confirm/draw events
once eviction and removal draining complete; and on every draw the ids
queued for removal are exactly the oldest-arrived prefix of the tracked
sequence beyond the cap, minus empty ids and ids of the pass's added set. -/
theorem drawUpdates_node_cap (proto : Protocol) (evs : List Event)
    (hdel : ∀ items now, Event.deliver items now ∈ evs →
      ∀ it ∈ items, ¬ it.id = "")
    (hcap : ∀ pre now rest, evs = pre ++ Event.draw now :: rest →
      (drawBatch (List.foldl (step proto) {} pre) now).length ≤ MAX_ITEMS) :
    (runTrace proto evs).graph.nodes.length ≤ MAX_ITEMS
    ∧ ∀ pre now rest, evs = pre ++ Event.draw now :: rest →
        (evictLoop (drawBatch (List.foldl (step proto) {} pre) now)
            ((List.foldl (step proto) {} pre).existingIds
              ++ drawBatch (List.foldl (step proto) {} pre) now)
            (List.foldl (step proto) {} pre).removeNodesQueue).2
          = (List.foldl (step proto) {} pre).removeNodesQueue
            ++ (((List.foldl (step proto) {} pre).existingIds
                ++ drawBatch (List.foldl (step proto) {} pre) now).take
                (((List.foldl (step proto) {} pre).existingIds
                  ++ drawBatch (List.foldl (step proto) {} pre) now).length
                  - MAX_ITEMS)).filter
                (fun x => x != ""
                  && !((drawBatch (List.foldl (step proto) {} pre) now).contains x)) := by
  constructor
  · exact VisInv_nodes_le _ (runTrace_inv_aux proto evs {} VisInv_init hdel hcap)
  · intro pre now rest heq
    rw [evictLoop_eq]

/-- A concrete feed item for exercising the node-cap theorem. -/
def c2wItem : IFeedItem := { id := "a" }

/-- A concrete event trace: one delivered item, then one draw. -/
def c2wTrace : List Visualizer.Event :=
  [Visualizer.Event.deliver [c2wItem] 0, Visualizer.Event.draw 1]

open Visualizer in
theorem drawUpdates_node_cap_witness :
    (runTrace Protocol.og c2wTrace).graph.nodes.length ≤ MAX_ITEMS
    ∧ ∀ pre now rest, c2wTrace = pre ++ Event.draw now :: rest →
        (evictLoop (drawBatch (List.foldl (step Protocol.og) {} pre) now)
            ((List.foldl (step Protocol.og) {} pre).existingIds
              ++ drawBatch (List.foldl (step Protocol.og) {} pre) now)
            (List.foldl (step Protocol.og) {} pre).removeNodesQueue).2
          = (List.foldl (step Protocol.og) {} pre).removeNodesQueue
            ++ (((List.foldl (step Protocol.og) {} pre).existingIds
                ++ drawBatch (List.foldl (step Protocol.og) {} pre) now).take
                (((List.foldl (step Protocol.og) {} pre).existingIds
                  ++ drawBatch (List.foldl (step Protocol.og) {} pre) now).length
                  - MAX_ITEMS)).filter
                (fun x => x != ""
                  && !((drawBatch (List.foldl (step Protocol.og) {} pre) now).contains x)) :=
  drawUpdates_node_cap Protocol.og c2wTrace
    (by
      intro items now h it hit
      have he : c2wTrace
          = [Event.deliver [c2wItem] 0, Event.draw 1] := rfl
      rw [he] at h
      simp only [List.mem_cons, List.mem_singleton] at h
      rcases h with h | h
      · rw [Event.deliver.injEq] at h
        obtain ⟨h1, _⟩ := h
        subst h1
        rw [List.mem_singleton] at hit
        subst hit
        decide
      · rcases h with h | h
        · exact absurd h (by simp)
        · exact absurd h (by simp))
    (by
      intro pre now rest heq
      have he : c2wTrace
          = [Event.deliver [c2wItem] 0, Event.draw 1] := rfl
      rw [he] at heq
      match pre, heq with
      | [], heq => exact absurd heq (by simp)
      | [a], heq =>
        rw [List.cons_append, List.nil_append] at heq
        rw [List.cons.injEq, List.cons.injEq] at heq
        obtain ⟨h1, h2, _⟩ := heq
        rw [Event.draw.injEq] at h2
        subst h2
        subst h1
        decide
      | a :: b :: pre2, heq =>
        rw [List.cons_append, List.cons_append] at heq
        rw [List.cons.injEq, List.cons.injEq] at heq
        exact absurd heq.2.2 (by simp))

section C3SmallNetworks

open Visualizer

/-- Spec-side variant of removeSmallNetworksPass, following the claim's
words: the relative threshold denominator is the CURRENT TOTAL RETAINED
NODE COUNT (the number of nodes currently in the graph at the start of
the pass), rather than the length of the arrival-order id sequence that
the code uses. Everything else matches the code. -/
def specRemoveSmallNetworksPass (g : Graph) (ms : List (Int × MsEntry))
    (now : Int) : Graph × List (Int × MsEntry) × Bool :=
  let e := enumerateSubGraphs g
  let qr := e.2.foldl
    (fun (acc : List String × Bool) sub =>
      if 100 * sub.1.length < 3 * g.nodes.length
          && decide (now - sub.2 > 60000) then
        (acc.1 ++ sub.1, true)
      else acc) ([], false)
  if qr.2 then
    let r := removeNodes e.1 ms qr.1
    (r.1, r.2, true)
  else (e.1, ms, false)

/-- Spec-side fixed-point loop over the spec-side pass. -/
def specRemoveSmallNetworksLoop :
    Nat → Graph → List (Int × MsEntry) → Int → Graph × List (Int × MsEntry)
  | 0, g, ms, _ => (g, ms)
  | fuel + 1, g, ms, now =>
    let r := specRemoveSmallNetworksPass g ms now
    if r.2.2 then specRemoveSmallNetworksLoop fuel r.1 r.2.1 now
    else (r.1, r.2.1)

/-- Spec-side removeSmallNetworks per the claim's words. -/
def specRemoveSmallNetworks (g : Graph) (ms : List (Int × MsEntry))
    (now : Int) : Graph × List (Int × MsEntry) :=
  specRemoveSmallNetworksLoop (g.nodes.length + 1) g ms now

/-- A one-node graph whose single node arrived at time 0. -/
def c3g : Graph :=
  Graph.mk [("x", INodeData.mk { id := "x" } 0 none)] []

open Visualizer in
/-- C3 counterexample: with one retained node but an arrival-order id list
of length 67 (reachable, because draining removed nodes never shrinks
_existingIds), the code's pass removes the stale single-node component
(100*1 < 3*67), while the claim's predicate - denominator the current
total retained node count - spares it (100*1 < 3*1 is false). -/
theorem C3_counterexample :
    (removeSmallNetworks c3g [] 67 100000).1.nodes.length = 0
    ∧ (specRemoveSmallNetworks c3g [] 100000).1.nodes.length = 1 := by
  constructor
  · rfl
  · rfl

end C3SmallNetworks

section C3MarkLemmas

open Visualizer

theorem nodup_fst_entry_unique :
    ∀ (l : List (String × INodeData)), (l.map Prod.fst).Nodup →
    ∀ a b : String × INodeData, a ∈ l → b ∈ l → a.1 = b.1 → a = b := by
  intro l
  induction l with
  | nil =>
    intro _ a b ha _ _
    exact absurd ha (by simp)
  | cons x xs ih =>
    intro hnd a b ha hb he
    rw [List.map_cons, List.nodup_cons] at hnd
    rcases List.mem_cons.mp ha with rfl | ha'
    · rcases List.mem_cons.mp hb with rfl | hb'
      · rfl
      · exact absurd (he ▸ List.mem_map_of_mem Prod.fst hb') hnd.1
    · rcases List.mem_cons.mp hb with rfl | hb'
      · exact absurd (he ▸ List.mem_map_of_mem Prod.fst ha') hnd.1
      · exact ih hnd.2 a b ha' hb' he

theorem getNode_entry_eq (g : Graph) (hnd : g.ids.Nodup) (id : String)
    (nd : INodeData) (hget : g.getNode id = some nd)
    (p : String × INodeData) (hmem : p ∈ g.nodes) (hk : (p.1 == id) = true) :
    p.2 = nd := by
  unfold Graph.getNode at hget
  rw [Option.map_eq_some'] at hget
  obtain ⟨e, he, hend⟩ := hget
  have hemem : e ∈ g.nodes := List.mem_of_find?_eq_some he
  have hef0 := List.find?_some he
  have hef : (e.1 == id) = true := hef0
  have hpe : p = e := by
    apply nodup_fst_entry_unique g.nodes hnd p e hmem hemem
    have h1 : p.1 = id := by simpa using hk
    have h2 : e.1 = id := by simpa using hef
    rw [h1, h2]
  rw [hpe, hend]

theorem clearGraphIds_setData_mark (g : Graph) (id : String) (nd : INodeData)
    (v : Option Nat) (hnd : g.ids.Nodup) (hget : g.getNode id = some nd) :
    clearGraphIds (g.setData id { nd with graphId := v }) = clearGraphIds g := by
  unfold clearGraphIds Graph.setData
  dsimp only
  rw [Graph.mk.injEq]
  refine ⟨?_, rfl⟩
  rw [List.map_map]
  apply List.map_congr_left
  intro p hp
  by_cases hk : (p.1 == id) = true
  · have hp1 : p.1 = id := by simpa using hk
    have hp2 : p.2 = nd := getNode_entry_eq g hnd id nd hget p hp hk
    show (fun p => (p.1, { p.2 with graphId := none }))
        (if (p.1 == id) = true then (id, { nd with graphId := v }) else p)
      = (p.1, { p.2 with graphId := none })
    rw [if_pos hk]
    dsimp only
    rw [hp1, hp2]
  · show (fun p => (p.1, { p.2 with graphId := none }))
        (if (p.1 == id) = true then (id, { nd with graphId := v }) else p)
      = (p.1, { p.2 with graphId := none })
    rw [if_neg hk]

theorem clearGraphIds_idem (g : Graph) :
    clearGraphIds (clearGraphIds g) = clearGraphIds g := by
  unfold clearGraphIds
  dsimp only
  rw [Graph.mk.injEq]
  refine ⟨?_, rfl⟩
  rw [List.map_map]
  rfl

theorem clearGraphIds_csgLoop (gid : Nat) :
    ∀ (fuel : Nat) (g : Graph) (queue visited : List String) (mrc : Int),
    g.ids.Nodup →
    clearGraphIds (calculateSubGraphLoop gid fuel g queue visited mrc).1
      = clearGraphIds g := by
  intro fuel
  induction fuel with
  | zero => intro g queue visited mrc _; rfl
  | succ n ih =>
    intro g queue visited mrc hnd
    unfold calculateSubGraphLoop
    cases queue with
    | nil => rfl
    | cons nodeId rest =>
      dsimp only
      by_cases hne : (nodeId != "") = true
      · rw [if_pos hne]
        cases hn : g.getNode nodeId with
        | some nd =>
          dsimp only
          by_cases hg : nd.graphId.isNone
          · rw [if_pos hg]
            have hnd1 : (g.setData nodeId { nd with graphId := some gid }).ids.Nodup := by
              rw [ids_setData]
              exact hnd
            rw [ih _ _ _ _ hnd1]
            exact clearGraphIds_setData_mark g nodeId nd (some gid) hnd hn
          · rw [if_neg hg]
            exact ih _ _ _ _ hnd
        | none =>
          dsimp only
          exact ih _ _ _ _ hnd
      · rw [if_neg hne]
        exact ih _ _ _ _ hnd

theorem clearGraphIds_calculateSubGraph (g : Graph) (startId : String)
    (gid : Nat) (hnd : g.ids.Nodup) :
    clearGraphIds (calculateSubGraph g startId gid).1 = clearGraphIds g :=
  clearGraphIds_csgLoop gid _ g _ _ _ hnd

theorem clearGraphIds_enumerateSubGraphs (g : Graph) (hnd : g.ids.Nodup) :
    clearGraphIds (enumerateSubGraphs g).1 = clearGraphIds g := by
  unfold enumerateSubGraphs
  have hfold : ∀ (l : List String) (acc : Graph × List (List String × Int)),
      clearGraphIds acc.1 = clearGraphIds (clearGraphIds g) →
      acc.1.ids.Nodup →
      clearGraphIds ((l.foldl
        (fun (acc : Graph × List (List String × Int)) id =>
          match acc.1.getNode id with
          | some nd =>
            if nd.graphId.isNone then
              let r := calculateSubGraph acc.1 id (acc.2.length + 1)
              (r.1, acc.2 ++ [(r.2.1, r.2.2)])
            else acc
          | none => acc) acc)).1 = clearGraphIds (clearGraphIds g) := by
    intro l
    induction l with
    | nil => intro acc h _; exact h
    | cons id rest ih =>
      intro acc h hndacc
      rw [List.foldl_cons]
      cases hget : acc.1.getNode id with
      | none =>
        apply ih acc h hndacc
      | some nd =>
        dsimp only
        by_cases hg : nd.graphId.isNone
        · rw [if_pos hg]
          apply ih
          · dsimp only
            rw [clearGraphIds_calculateSubGraph acc.1 id (acc.2.length + 1) hndacc]
            exact h
          · dsimp only
            rw [ids_calculateSubGraph]
            exact hndacc
        · rw [if_neg hg]
          exact ih acc h hndacc
  have hbase : clearGraphIds (clearGraphIds g) = clearGraphIds g :=
    clearGraphIds_idem g
  have hndc : (clearGraphIds g).ids.Nodup := by
    rw [ids_clearGraphIds]
    exact hnd
  have := hfold (clearGraphIds g).ids (clearGraphIds g, []) rfl hndc
  rw [this, hbase]

end C3MarkLemmas

section C3StartLemmas

open Visualizer

theorem csgLoop_visited_extends (gid : Nat) :
    ∀ (fuel : Nat) (g : Graph) (queue visited : List String) (mrc : Int),
    ∃ w, (calculateSubGraphLoop gid fuel g queue visited mrc).2.1
      = visited ++ w := by
  intro fuel
  induction fuel with
  | zero =>
    intro g queue visited mrc
    refine ⟨[], ?_⟩
    rw [List.append_nil]
    rfl
  | succ n ih =>
    intro g queue visited mrc
    unfold calculateSubGraphLoop
    cases queue with
    | nil =>
      refine ⟨[], ?_⟩
      rw [List.append_nil]
    | cons nodeId rest =>
      dsimp only
      by_cases hne : (nodeId != "") = true
      · rw [if_pos hne]
        cases hn : g.getNode nodeId with
        | some nd =>
          dsimp only
          by_cases hg : nd.graphId.isNone
          · rw [if_pos hg]
            obtain ⟨w, hw⟩ := ih (g.setData nodeId { nd with graphId := some gid })
              _ (visited ++ [nodeId]) _
            exact ⟨[nodeId] ++ w, by rw [hw, List.append_assoc]⟩
          · rw [if_neg hg]
            obtain ⟨w, hw⟩ := ih g rest (visited ++ [nodeId]) mrc
            exact ⟨[nodeId] ++ w, by rw [hw, List.append_assoc]⟩
        | none =>
          dsimp only
          obtain ⟨w, hw⟩ := ih g rest (visited ++ [nodeId]) mrc
          exact ⟨[nodeId] ++ w, by rw [hw, List.append_assoc]⟩
      · rw [if_neg hne]
        exact ih g rest visited mrc

theorem csg_start_mem (g : Graph) (id : String) (gid : Nat)
    (hid : (id != "") = true) (nd : INodeData) (hget : g.getNode id = some nd)
    (hnone : nd.graphId.isNone = true) :
    id ∈ (calculateSubGraph g id gid).2.1 := by
  unfold calculateSubGraph
  rw [show g.nodes.length + 1 = g.nodes.length + 1 from rfl]
  unfold calculateSubGraphLoop
  dsimp only
  rw [if_pos hid, hget]
  dsimp only
  rw [if_pos hnone]
  obtain ⟨w, hw⟩ := csgLoop_visited_extends gid g.nodes.length
    (g.setData id { nd with graphId := some gid }) _ ([] ++ [id]) _
  rw [hw]
  simp

theorem enumerate_sub_has_id (g : Graph) (hids : ∀ x ∈ g.ids, ¬ x = "") :
    ∀ sub ∈ (enumerateSubGraphs g).2, ∃ t, t ∈ sub.1 ∧ t ∈ g.ids := by
  unfold enumerateSubGraphs
  have hfold : ∀ (l : List String) (acc : Graph × List (List String × Int)),
      (∀ x ∈ l, x ∈ g.ids) →
      acc.1.ids = g.ids →
      (∀ sub ∈ acc.2, ∃ t, t ∈ sub.1 ∧ t ∈ g.ids) →
      ∀ sub ∈ ((l.foldl
        (fun (acc : Graph × List (List String × Int)) id =>
          match acc.1.getNode id with
          | some nd =>
            if nd.graphId.isNone then
              let r := calculateSubGraph acc.1 id (acc.2.length + 1)
              (r.1, acc.2 ++ [(r.2.1, r.2.2)])
            else acc
          | none => acc) acc)).2, ∃ t, t ∈ sub.1 ∧ t ∈ g.ids := by
    intro l
    induction l with
    | nil => intro acc _ _ hacc; exact hacc
    | cons id rest ih =>
      intro acc hl haccids hacc
      rw [List.foldl_cons]
      cases hget : acc.1.getNode id with
      | none => exact ih acc (fun x hx => hl x (by simp [hx])) haccids hacc
      | some nd =>
        dsimp only
        by_cases hg : nd.graphId.isNone
        · rw [if_pos hg]
          apply ih
          · intro x hx
            exact hl x (by simp [hx])
          · dsimp only
            rw [ids_calculateSubGraph]
            exact haccids
          · intro sub hsub
            dsimp only at hsub
            rcases List.mem_append.mp hsub with hold | hnew
            · exact hacc sub hold
            · rw [List.mem_singleton] at hnew
              subst hnew
              have hidg : id ∈ g.ids := hl id (by simp)
              have hidne : (id != "") = true := by
                have := hids id hidg
                simpa using this
              refine ⟨id, ?_, hidg⟩
              exact csg_start_mem acc.1 id (acc.2.length + 1) hidne nd hget hg
        · rw [if_neg hg]
          exact ih acc (fun x hx => hl x (by simp [hx])) haccids hacc
  intro sub hsub
  refine hfold (clearGraphIds g).ids (clearGraphIds g, []) ?_ ?_ ?_ sub hsub
  · intro x hx
    rw [ids_clearGraphIds] at hx
    exact hx
  · exact ids_clearGraphIds g
  · intro sub hsub
    exact absurd hsub (by simp)

end C3StartLemmas

section C3PassLemmas

open Visualizer

theorem prune_fold_eq (el : Nat) (now : Int) :
    ∀ (subs : List (List String × Int)) (acc : List String) (b : Bool),
    subs.foldl (fun (acc : List String × Bool) sub =>
        if 100 * sub.1.length < 3 * el && decide (now - sub.2 > 60000) then
          (acc.1 ++ sub.1, true)
        else acc) (acc, b)
      = (acc ++ ((subs.filter (fun sub => 100 * sub.1.length < 3 * el
            && decide (now - sub.2 > 60000))).map (fun sub => sub.1)).flatten,
         b || subs.any (fun sub => 100 * sub.1.length < 3 * el
            && decide (now - sub.2 > 60000))) := by
  intro subs
  induction subs with
  | nil =>
    intro acc b
    simp
  | cons s rest ih =>
    intro acc b
    rw [List.foldl_cons]
    by_cases hc : (100 * s.1.length < 3 * el
        && decide (now - s.2 > 60000)) = true
    · rw [show (if 100 * s.1.length < 3 * el && decide (now - s.2 > 60000) then
          ((acc, b).1 ++ s.1, true) else (acc, b))
          = (acc ++ s.1, true) from by rw [if_pos hc]]
      rw [ih]
      rw [show List.filter (fun sub => 100 * sub.1.length < 3 * el
            && decide (now - sub.2 > 60000)) (s :: rest)
          = s :: List.filter (fun sub => 100 * sub.1.length < 3 * el
            && decide (now - sub.2 > 60000)) rest from List.filter_cons_of_pos hc]
      rw [List.map_cons, List.flatten_cons, List.any_cons, hc]
      rw [Prod.mk.injEq]
      constructor
      · rw [List.append_assoc]
      · rw [Bool.true_or, Bool.or_true]
    · rw [show (if 100 * s.1.length < 3 * el && decide (now - s.2 > 60000) then
          ((acc, b).1 ++ s.1, true) else (acc, b))
          = (acc, b) from by rw [if_neg (by simpa using hc)]]
      rw [ih]
      rw [show List.filter (fun sub => 100 * sub.1.length < 3 * el
            && decide (now - sub.2 > 60000)) (s :: rest)
          = List.filter (fun sub => 100 * sub.1.length < 3 * el
            && decide (now - sub.2 > 60000)) rest
          from List.filter_cons_of_neg (by simpa using hc)]
      rw [List.any_cons]
      rw [Prod.mk.injEq]
      constructor
      · rfl
      · rw [show (100 * s.1.length < 3 * el && decide (now - s.2 > 60000))
            = false from by simpa using hc]
        rw [Bool.false_or]

theorem removeSmallNetworksPass_eq (g : Graph) (ms : List (Int × MsEntry))
    (el : Nat) (now : Int) :
    removeSmallNetworksPass g ms el now
      = (if ((enumerateSubGraphs g).2.filter
            (fun sub => 100 * sub.1.length < 3 * el
              && decide (now - sub.2 > 60000))).isEmpty = true
         then ((enumerateSubGraphs g).1, ms, false)
         else ((removeNodes (enumerateSubGraphs g).1 ms
              (((enumerateSubGraphs g).2.filter
                (fun sub => 100 * sub.1.length < 3 * el
                  && decide (now - sub.2 > 60000))).map
                (fun sub => sub.1)).flatten).1,
            (removeNodes (enumerateSubGraphs g).1 ms
              (((enumerateSubGraphs g).2.filter
                (fun sub => 100 * sub.1.length < 3 * el
                  && decide (now - sub.2 > 60000))).map
                (fun sub => sub.1)).flatten).2, true)) := by
  unfold removeSmallNetworksPass
  dsimp only
  rw [prune_fold_eq el now (enumerateSubGraphs g).2 [] false]
  rw [List.nil_append, Bool.false_or]
  by_cases hany : ((enumerateSubGraphs g).2.any
      (fun sub => 100 * sub.1.length < 3 * el
        && decide (now - sub.2 > 60000))) = true
  · rw [if_pos hany]
    rw [List.any_eq_true] at hany
    obtain ⟨sub, hsub, hcsub⟩ := hany
    have hne : ((enumerateSubGraphs g).2.filter
        (fun sub => 100 * sub.1.length < 3 * el
          && decide (now - sub.2 > 60000))).isEmpty = false := by
      rw [List.isEmpty_eq_false_iff_exists_mem]
      exact ⟨sub, List.mem_filter.mpr ⟨hsub, hcsub⟩⟩
    rw [if_neg (by rw [hne]; exact Bool.false_ne_true)]
  · rw [if_neg hany]
    have hnil : ((enumerateSubGraphs g).2.filter
        (fun sub => 100 * sub.1.length < 3 * el
          && decide (now - sub.2 > 60000))) = [] := by
      rw [List.filter_eq_nil_iff]
      intro sub hsub hcsub
      exact hany (List.any_eq_true.mpr ⟨sub, hsub, hcsub⟩)
    rw [if_pos (by rw [hnil]; rfl)]

theorem pass_flag_eq (g : Graph) (ms : List (Int × MsEntry)) (el : Nat)
    (now : Int) :
    (removeSmallNetworksPass g ms el now).2.2
      = !((enumerateSubGraphs g).2.filter
          (fun sub => 100 * sub.1.length < 3 * el
            && decide (now - sub.2 > 60000))).isEmpty := by
  rw [removeSmallNetworksPass_eq]
  by_cases he : ((enumerateSubGraphs g).2.filter
      (fun sub => 100 * sub.1.length < 3 * el
        && decide (now - sub.2 > 60000))).isEmpty = true
  · rw [if_pos he, he]
    rfl
  · rw [if_neg he]
    rw [Bool.not_eq_true] at he
    rw [he]
    rfl

theorem enumerateSubGraphs_congr (g1 g2 : Graph)
    (h : clearGraphIds g1 = clearGraphIds g2) :
    enumerateSubGraphs g1 = enumerateSubGraphs g2 := by
  unfold enumerateSubGraphs
  rw [h]

end C3PassLemmas

section C3MainLemmas

open Visualizer

theorem pass_flag_decreases (g : Graph) (ms : List (Int × MsEntry)) (el : Nat)
    (now : Int) (hids : ∀ x ∈ g.ids, ¬ x = "")
    (hflag : (removeSmallNetworksPass g ms el now).2.2 = true) :
    (removeSmallNetworksPass g ms el now).1.nodes.length < g.nodes.length := by
  rw [removeSmallNetworksPass_eq] at hflag ⊢
  by_cases he : ((enumerateSubGraphs g).2.filter
      (fun sub => 100 * sub.1.length < 3 * el
        && decide (now - sub.2 > 60000))).isEmpty = true
  · rw [if_pos he] at hflag
    exact absurd hflag (by simp)
  · rw [if_neg he] at hflag ⊢
    dsimp only
    rw [Bool.not_eq_true] at he
    rw [List.isEmpty_eq_false_iff_exists_mem] at he
    obtain ⟨sub, hsubf⟩ := he
    have hsub2 := List.mem_filter.mp hsubf
    obtain ⟨t, ht1, ht2⟩ := enumerate_sub_has_id g hids sub hsub2.1
    have htQ : t ∈ ((((enumerateSubGraphs g).2.filter
        (fun sub => 100 * sub.1.length < 3 * el
          && decide (now - sub.2 > 60000))).map
        (fun sub => sub.1)).flatten) := by
      rw [List.mem_flatten]
      exact ⟨sub.1, List.mem_map_of_mem _ hsubf, ht1⟩
    have htne : (t != "") = true := by simpa using hids t ht2
    have hnot := removeNodes_not_mem _ (enumerateSubGraphs g).1 ms t htQ htne
    have hsubl := ids_removeNodes_sublist ((((enumerateSubGraphs g).2.filter
        (fun sub => 100 * sub.1.length < 3 * el
          && decide (now - sub.2 > 60000))).map
        (fun sub => sub.1)).flatten) (enumerateSubGraphs g).1 ms
    have hteids : t ∈ (enumerateSubGraphs g).1.ids := by
      rw [ids_enumerateSubGraphs]
      exact ht2
    have hlt : ((removeNodes (enumerateSubGraphs g).1 ms
        ((((enumerateSubGraphs g).2.filter
          (fun sub => 100 * sub.1.length < 3 * el
            && decide (now - sub.2 > 60000))).map
          (fun sub => sub.1)).flatten)).1.ids).length
        < ((enumerateSubGraphs g).1.ids).length := by
      have hle := hsubl.length_le
      rcases Nat.eq_or_lt_of_le hle with heq | hlt
      · exfalso
        have heq2 := hsubl.eq_of_length heq
        rw [heq2] at hnot
        exact hnot hteids
      · exact hlt
    have hA : ∀ h : Graph, (h.ids).length = h.nodes.length := by
      intro h
      unfold Graph.ids
      rw [List.length_map]
    have hC : ((enumerateSubGraphs g).1.ids).length = (g.ids).length := by
      rw [ids_enumerateSubGraphs]
    have h1 := hA (removeNodes (enumerateSubGraphs g).1 ms
        ((((enumerateSubGraphs g).2.filter
          (fun sub => 100 * sub.1.length < 3 * el
            && decide (now - sub.2 > 60000))).map
          (fun sub => sub.1)).flatten)).1
    have h2 := hA (enumerateSubGraphs g).1
    have h3 := hA g
    omega

theorem loop_fixed_point (el : Nat) (now : Int) :
    ∀ (fuel : Nat) (g : Graph) (ms : List (Int × MsEntry)),
    (∀ x ∈ g.ids, ¬ x = "") → g.ids.Nodup → g.nodes.length < fuel →
    (removeSmallNetworksPass
      (removeSmallNetworksLoop fuel g ms el now).1
      (removeSmallNetworksLoop fuel g ms el now).2 el now).2.2 = false := by
  intro fuel
  induction fuel with
  | zero =>
    intro g ms _ _ h
    exact absurd h (Nat.not_lt_zero _)
  | succ n ih =>
    intro g ms hids hnd hlt
    unfold removeSmallNetworksLoop
    dsimp only
    by_cases hflag : (removeSmallNetworksPass g ms el now).2.2 = true
    · rw [if_pos hflag]
      have hsubl := ids_removeSmallNetworksPass_sublist g ms el now
      apply ih
      · intro x hx
        exact hids x (hsubl.subset hx)
      · exact hsubl.nodup hnd
      · have hdec := pass_flag_decreases g ms el now hids hflag
        omega
    · rw [if_neg hflag]
      dsimp only
      rw [Bool.not_eq_true] at hflag
      have hisE : ((enumerateSubGraphs g).2.filter
          (fun sub => 100 * sub.1.length < 3 * el
            && decide (now - sub.2 > 60000))).isEmpty = true := by
        have hfe := pass_flag_eq g ms el now
        rw [hflag] at hfe
        rcases Bool.eq_false_or_eq_true (((enumerateSubGraphs g).2.filter
            (fun sub => 100 * sub.1.length < 3 * el
              && decide (now - sub.2 > 60000))).isEmpty) with ht | hf
        · exact ht
        · rw [hf] at hfe
          exact absurd hfe (by simp)
      have hpassg : removeSmallNetworksPass g ms el now
          = ((enumerateSubGraphs g).1, ms, false) := by
        rw [removeSmallNetworksPass_eq, if_pos hisE]
      rw [hpassg]
      dsimp only
      rw [pass_flag_eq]
      rw [enumerateSubGraphs_congr (enumerateSubGraphs g).1 g
        (clearGraphIds_enumerateSubGraphs g hnd)]
      rw [hisE]
      rfl

end C3MainLemmas

open Visualizer in
/-- C3 amended: in a pruning pass a connected component's members are
queued for removal (and its nodes then removed) exactly when
100*count < 3*existingLen AND now - mostRecentChange > 60000, where
existingLen is the LENGTH OF THE ARRIVAL-ORDER ID SEQUENCE passed in —
not the current retained node count the claim names (see
C3_counterexample); and the discovery-and-removal process repeats until
one full pass finds no eligible component: a further pass on the loop's
result removes nothing. -/
theorem removeSmallNetworks_eligibility (g : Graph) (ms : List (Int × MsEntry))
    (el : Nat) (now : Int)
    (hids : ∀ x ∈ g.ids, ¬ x = "") (hnd : g.ids.Nodup) :
    (removeSmallNetworksPass g ms el now
      = (if ((enumerateSubGraphs g).2.filter
            (fun sub => 100 * sub.1.length < 3 * el
              && decide (now - sub.2 > 60000))).isEmpty = true
         then ((enumerateSubGraphs g).1, ms, false)
         else ((removeNodes (enumerateSubGraphs g).1 ms
              (((enumerateSubGraphs g).2.filter
                (fun sub => 100 * sub.1.length < 3 * el
                  && decide (now - sub.2 > 60000))).map
                (fun sub => sub.1)).flatten).1,
            (removeNodes (enumerateSubGraphs g).1 ms
              (((enumerateSubGraphs g).2.filter
                (fun sub => 100 * sub.1.length < 3 * el
                  && decide (now - sub.2 > 60000))).map
                (fun sub => sub.1)).flatten).2, true)))
    ∧ (removeSmallNetworksPass
        (removeSmallNetworks g ms el now).1
        (removeSmallNetworks g ms el now).2 el now).2.2 = false := by
  constructor
  · exact removeSmallNetworksPass_eq g ms el now
  · exact loop_fixed_point el now (g.nodes.length + 1) g ms hids hnd
      (Nat.lt_succ_self _)

open Visualizer in
/-- Witness for removeSmallNetworks_eligibility at the one-node graph with
an arrival-order list length of 67. -/
theorem removeSmallNetworks_eligibility_witness :
    (removeSmallNetworksPass c3g [] 67 100000
      = (if ((enumerateSubGraphs c3g).2.filter
            (fun sub => 100 * sub.1.length < 3 * 67
              && decide ((100000 : Int) - sub.2 > 60000))).isEmpty = true
         then ((enumerateSubGraphs c3g).1, [], false)
         else ((removeNodes (enumerateSubGraphs c3g).1 []
              (((enumerateSubGraphs c3g).2.filter
                (fun sub => 100 * sub.1.length < 3 * 67
                  && decide ((100000 : Int) - sub.2 > 60000))).map
                (fun sub => sub.1)).flatten).1,
            (removeNodes (enumerateSubGraphs c3g).1 []
              (((enumerateSubGraphs c3g).2.filter
                (fun sub => 100 * sub.1.length < 3 * 67
                  && decide ((100000 : Int) - sub.2 > 60000))).map
                (fun sub => sub.1)).flatten).2, true)))
    ∧ (removeSmallNetworksPass
        (removeSmallNetworks c3g [] 67 100000).1
        (removeSmallNetworks c3g [] 67 100000).2 67 100000).2.2 = false :=
  removeSmallNetworks_eligibility c3g [] 67 100000
    (by
      intro x hx
      rw [show c3g.ids = ["x"] from rfl, List.mem_singleton] at hx
      subst hx
      decide)
    (by
      rw [show c3g.ids = ["x"] from rfl]
      exact List.nodup_singleton _)

